import Mathlib

/-!
# QR-scan-from-IMG: content classification and action dispatch

A shallow embedding of `script.js`: the URL heuristic `isProbablyUrl`, the
classifier `classifyContent` and the page's event handlers, together with the
two pieces of the JavaScript platform they rest on (regular expressions and the
`URL` constructor).

JavaScript strings are modelled as `List Char`, that is as well-formed text (a
sequence of Unicode scalar values).
-/

namespace QRScan

/-! ## JavaScript strings -/

/-- ECMAScript `WhiteSpace` and `LineTerminator` code points: what
`String.prototype.trim` strips and what `\s` matches in a regular expression. -/
def isWhiteSpace (c : Char) : Bool :=
  let n := c.toNat
  n == 0x09 || n == 0x0A || n == 0x0B || n == 0x0C || n == 0x0D || n == 0x20 ||
  n == 0xA0 || n == 0x1680 || (0x2000 ≤ n && n ≤ 0x200A) || n == 0x2028 ||
  n == 0x2029 || n == 0x202F || n == 0x205F || n == 0x3000 || n == 0xFEFF

/-- `String.prototype.trimStart`. -/
def trimStart (s : List Char) : List Char :=
  s.dropWhile isWhiteSpace

/-- `String.prototype.trimEnd`. -/
def trimEnd (s : List Char) : List Char :=
  (s.reverse.dropWhile isWhiteSpace).reverse

/-- `String.prototype.trim`. -/
def trim (s : List Char) : List Char :=
  trimEnd (trimStart s)

/-- `String.prototype.startsWith` (case-sensitive). -/
def startsWith (s pre : List Char) : Bool :=
  pre.isPrefixOf s

/-- Truthiness of a JavaScript string: every string but the empty one. -/
def truthy (s : List Char) : Bool :=
  !s.isEmpty

/-- The expression `text || ""` for an argument that is a string or absent
(`null` / `undefined`). -/
def orEmpty (text : Option (List Char)) : List Char :=
  match text with
  | some s => s
  | none => []

/-! ## Regular expressions

The fragment of ECMAScript regular expressions that `script.js` uses: literal
characters, character classes, sequence, alternation, `?`, `+`, `{n,}`, the
anchors `^` and `$` around the whole pattern, and the flag `i`. -/

/-- One member of a character class `[...]`. -/
inductive ClassItem where
  | single (c : Char)
  | range (lo hi : Char)
  | space
  deriving Repr

/-- Regular expression bodies. `none` matches nothing; it only arises as a
derivative. -/
inductive Regex where
  | none
  | eps
  | chr (c : Char)
  | cls (negated : Bool) (items : List ClassItem)
  | seq (a b : Regex)
  | alt (a b : Regex)
  | star (a : Regex)
  deriving Repr

/-- Canonicalisation of a character for matching: under the flag `i` two
characters match when their upper-case forms agree. The patterns of this
program only name ASCII letters, for which ECMAScript's `Canonicalize` is ASCII
upper-casing (it never maps a non-ASCII character onto an ASCII one). -/
def canonicalize (ignoreCase : Bool) (c : Char) : Char :=
  if ignoreCase then c.toUpper else c

/-- Whether a class member covers the character `c`. -/
def ClassItem.has (ignoreCase : Bool) (it : ClassItem) (c : Char) : Bool :=
  match it with
  | .single a => canonicalize ignoreCase a == canonicalize ignoreCase c
  | .range lo hi =>
    let within := fun (x : Char) => lo.toNat ≤ x.toNat && x.toNat ≤ hi.toNat
    if ignoreCase then within c || within c.toLower || within c.toUpper else within c
  | .space => isWhiteSpace c

/-- Whether a single character is matched by an atom; `false` for the
compound forms. -/
def Regex.accepts (ignoreCase : Bool) (r : Regex) (c : Char) : Bool :=
  match r with
  | .chr a => canonicalize ignoreCase a == canonicalize ignoreCase c
  | .cls negated items => negated != items.any (fun it => it.has ignoreCase c)
  | _ => false

/-- Whether the expression matches the empty string. -/
def Regex.nullable : Regex → Bool
  | .none => false
  | .eps => true
  | .chr _ => false
  | .cls _ _ => false
  | .seq a b => a.nullable && b.nullable
  | .alt a b => a.nullable || b.nullable
  | .star _ => true

/-- Brzozowski derivative: what remains to be matched after reading `c`. -/
def Regex.deriv (ignoreCase : Bool) : Regex → Char → Regex
  | .none, _ => .none
  | .eps, _ => .none
  | .chr a, c => if (Regex.chr a).accepts ignoreCase c then .eps else .none
  | .cls n items, c => if (Regex.cls n items).accepts ignoreCase c then .eps else .none
  | .seq a b, c =>
    if a.nullable then .alt (.seq (a.deriv ignoreCase c) b) (b.deriv ignoreCase c)
    else .seq (a.deriv ignoreCase c) b
  | .alt a b, c => .alt (a.deriv ignoreCase c) (b.deriv ignoreCase c)
  | .star a, c => .seq (a.deriv ignoreCase c) (.star a)

/-- The whole string is matched (`^r$`). -/
def Regex.matchesAll (ignoreCase : Bool) (r : Regex) : List Char → Bool
  | [] => r.nullable
  | c :: cs => Regex.matchesAll ignoreCase (r.deriv ignoreCase c) cs

/-- Some prefix of the string is matched (`^r`). -/
def Regex.matchesPrefix (ignoreCase : Bool) (r : Regex) : List Char → Bool
  | [] => r.nullable
  | c :: cs => r.nullable || Regex.matchesPrefix ignoreCase (r.deriv ignoreCase c) cs

/-- Runs `f` on the string and on each of its suffixes. -/
def anySuffix (f : List Char → Bool) : List Char → Bool
  | [] => f []
  | c :: cs => f (c :: cs) || anySuffix f cs

/-- The literal string `w` as an expression. -/
def Regex.lit : List Char → Regex
  | [] => .eps
  | [c] => .chr c
  | c :: cs => .seq (.chr c) (Regex.lit cs)

/-- The quantifier `r?`. -/
def Regex.opt (r : Regex) : Regex := .alt r .eps

/-- The quantifier `r+`. -/
def Regex.plus (r : Regex) : Regex := .seq r (.star r)

/-- The quantifier `r{n,}`. -/
def Regex.atLeast : Nat → Regex → Regex
  | 0, r => .star r
  | n + 1, r => .seq r (Regex.atLeast n r)

/-- A regular expression literal `/.../flags`: whether it opens with `^`, its
body, whether it closes with `$`, and whether the flag `i` is set. -/
structure RegExp where
  anchorStart : Bool
  body : Regex
  anchorEnd : Bool
  ignoreCase : Bool

/-- `RegExp.prototype.test` for a pattern without the flags `g` and `y`:
whether a match exists at some position of the string. -/
def RegExp.test (re : RegExp) (s : List Char) : Bool :=
  match re.anchorStart, re.anchorEnd with
  | true, true => re.body.matchesAll re.ignoreCase s
  | true, false => re.body.matchesPrefix re.ignoreCase s
  | false, true => anySuffix (re.body.matchesAll re.ignoreCase) s
  | false, false => anySuffix (re.body.matchesPrefix re.ignoreCase) s

/-! ### The language of an expression -/

/-- The strings an expression denotes, as a relation; the matcher above is
proved to decide it. -/
inductive Regex.Matches (ic : Bool) : Regex → List Char → Prop where
  | eps : Regex.Matches ic .eps []
  | chr {a c : Char} : (Regex.chr a).accepts ic c = true → Regex.Matches ic (.chr a) [c]
  | cls {n : Bool} {items : List ClassItem} {c : Char} :
      (Regex.cls n items).accepts ic c = true → Regex.Matches ic (.cls n items) [c]
  | seq {a b : Regex} {s t : List Char} :
      Regex.Matches ic a s → Regex.Matches ic b t → Regex.Matches ic (.seq a b) (s ++ t)
  | altL {a b : Regex} {s : List Char} : Regex.Matches ic a s → Regex.Matches ic (.alt a b) s
  | altR {a b : Regex} {s : List Char} : Regex.Matches ic b s → Regex.Matches ic (.alt a b) s
  | starNil {a : Regex} : Regex.Matches ic (.star a) []
  | starCons {a : Regex} {s t : List Char} :
      Regex.Matches ic a s → Regex.Matches ic (.star a) t → Regex.Matches ic (.star a) (s ++ t)

/-! ## The `URL` constructor

`URL` is a built-in of the browser, not code of the repository; it is modelled
from the URL Standard (url.spec.whatwg.org). `new URL(str)` runs the basic URL
parser without a base URL and throws a `TypeError` when it fails. `script.js`
reads `protocol` and `hostname` of the result, so the parser is followed, state
by state, up to the point where scheme, host and port are settled; the states
after that (path, query, fragment) never fail and do not touch scheme or host.
Each definition below is named after the algorithm or parser state of the
standard it follows. -/

/-- The part of host parsing that rests on Unicode data tables, which are not
part of the program: `UTF-8 decode without BOM` followed by `Unicode ToASCII`
(UTS #46, as called from the URL Standard's "domain to ASCII" with `beStrict`
false), applied to the percent-decoded bytes of a domain. It is consulted only
for a domain that is not plain ASCII or that has a label starting with `xn--`;
`none` is a failure. -/
structure Idna where
  toASCII : List Nat → Option (List Char)

/-- ASCII alpha. -/
def isAsciiAlpha (c : Char) : Bool :=
  (65 ≤ c.toNat && c.toNat ≤ 90) || (97 ≤ c.toNat && c.toNat ≤ 122)

/-- ASCII digit. -/
def isAsciiDigit (c : Char) : Bool :=
  48 ≤ c.toNat && c.toNat ≤ 57

/-- ASCII alphanumeric. -/
def isAsciiAlphanumeric (c : Char) : Bool :=
  isAsciiAlpha c || isAsciiDigit c

/-- ASCII hex digit. -/
def isAsciiHexDigit (c : Char) : Bool :=
  isAsciiDigit c || (65 ≤ c.toNat && c.toNat ≤ 70) || (97 ≤ c.toNat && c.toNat ≤ 102)

/-- The value of a digit in a radix up to 16, for a code point that is an
ASCII hex digit. -/
def digitValue (c : Char) : Nat :=
  if c.toNat ≤ 57 then c.toNat - 48
  else if c.toNat ≤ 70 then c.toNat - 55
  else c.toNat - 87

/-- C0 control or space. -/
def isC0ControlOrSpace (c : Char) : Bool :=
  c.toNat ≤ 0x20

/-- ASCII tab or newline. -/
def isAsciiTabOrNewline (c : Char) : Bool :=
  c.toNat == 0x09 || c.toNat == 0x0A || c.toNat == 0x0D

/-- Forbidden host code point. -/
def isForbiddenHostCodePoint (c : Char) : Bool :=
  c.toNat == 0x00 || c.toNat == 0x09 || c.toNat == 0x0A || c.toNat == 0x0D ||
  c.toNat == 0x20 || c == '#' || c == '/' || c == ':' || c == '<' || c == '>' ||
  c == '?' || c == '@' || c == '[' || c == '\\' || c == ']' || c == '^' || c == '|'

/-- Forbidden domain code point. -/
def isForbiddenDomainCodePoint (c : Char) : Bool :=
  isForbiddenHostCodePoint c || c.toNat ≤ 0x1F || c == '%' || c.toNat == 0x7F

/-- Strictly split on U+002E (.). -/
def splitOnDot : List Char → List (List Char)
  | [] => [[]]
  | c :: cs =>
    if c == '.' then [] :: splitOnDot cs
    else
      match splitOnDot cs with
      | [] => [[c]]
      | p :: ps => (c :: p) :: ps

/-- The bytes of the UTF-8 encoding of a code point. -/
def utf8Encode (c : Char) : List Nat :=
  let n := c.toNat
  if n < 0x80 then [n]
  else if n < 0x800 then [0xC0 + n / 0x40, 0x80 + n % 0x40]
  else if n < 0x10000 then [0xE0 + n / 0x1000, 0x80 + n / 0x40 % 0x40, 0x80 + n % 0x40]
  else [0xF0 + n / 0x40000, 0x80 + n / 0x1000 % 0x40, 0x80 + n / 0x40 % 0x40, 0x80 + n % 0x40]

/-- Whether a byte is an ASCII hex digit. -/
def isHexByte (b : Nat) : Bool :=
  (0x30 ≤ b && b ≤ 0x39) || (0x41 ≤ b && b ≤ 0x46) || (0x61 ≤ b && b ≤ 0x66)

/-- The value of a byte that is an ASCII hex digit. -/
def hexByteValue (b : Nat) : Nat :=
  if b ≤ 0x39 then b - 0x30 else if b ≤ 0x46 then b - 0x37 else b - 0x57

/-- Percent-decode a byte sequence; `skip` counts the bytes still to be
skipped after an escape has been decoded. -/
def percentDecodeFrom : Nat → List Nat → List Nat
  | _, [] => []
  | skip + 1, _ :: rest => percentDecodeFrom skip rest
  | 0, b :: rest =>
    if b == 0x25 then
      match rest with
      | h :: l :: _ =>
        if isHexByte h && isHexByte l then
          (hexByteValue h * 16 + hexByteValue l) :: percentDecodeFrom 2 rest
        else b :: percentDecodeFrom 0 rest
      | _ => b :: percentDecodeFrom 0 rest
    else b :: percentDecodeFrom 0 rest

/-- Percent-decode a byte sequence. -/
def percentDecode (input : List Nat) : List Nat :=
  percentDecodeFrom 0 input

/-- An upper-case hex digit. -/
def upperHexDigit (n : Nat) : Char :=
  if n < 10 then Char.ofNat (48 + n) else Char.ofNat (55 + n)

/-- UTF-8 percent-encode a code point using the C0 control percent-encode set
(C0 controls and all code points above U+007E). -/
def percentEncodeC0 (c : Char) : List Char :=
  if c.toNat ≤ 0x1F || 0x7E < c.toNat then
    (utf8Encode c).flatMap (fun b => ['%', upperHexDigit (b / 16), upperHexDigit (b % 16)])
  else [c]

/-- The value of a string of digits in radix `radix`. -/
def radixValue (radix : Nat) (digits : List Char) : Nat :=
  digits.foldl (fun acc d => acc * radix + digitValue d) 0

/-- A host, as the host parser returns it. -/
inductive Host where
  | domain (name : List Char)
  | ipv4 (address : Nat)
  | ipv6 (pieces : List Nat)
  | verbatim (name : List Char)
  deriving Repr

/-- IPv4 number parser: `none` is failure. -/
def ipv4NumberParser (input : List Char) : Option Nat :=
  match input with
  | [] => none
  | '0' :: x :: rest =>
    if x == 'x' || x == 'X' then
      if rest.all isAsciiHexDigit then some (radixValue 16 rest) else none
    else
      if (x :: rest).all (fun d => 48 ≤ d.toNat && d.toNat ≤ 55) then some (radixValue 8 (x :: rest))
      else none
  | _ => if input.all isAsciiDigit then some (radixValue 10 input) else none

/-- Ends-in-a-number checker. -/
def endsInANumber (input : List Char) : Bool :=
  let parts := splitOnDot input
  let parts := if parts.getLast? == some [] then parts.dropLast else parts
  match parts.getLast? with
  | none => false
  | some last => (!last.isEmpty && last.all isAsciiDigit) || (ipv4NumberParser last).isSome

/-- Folds the leading numbers of an IPv4 address into its last one. -/
def ipv4Combine (last : Nat) : List Nat → Nat → Nat
  | [], _ => last
  | n :: ns, counter => n * 256 ^ (3 - counter) + ipv4Combine last ns (counter + 1)

/-- All the results of a list of parses, or `none` when one of them failed. -/
def allSome : List (Option Nat) → Option (List Nat)
  | [] => some []
  | none :: _ => none
  | some n :: rest =>
    match allSome rest with
    | none => none
    | some ns => some (n :: ns)

/-- IPv4 parser. -/
def ipv4Parser (input : List Char) : Option Nat :=
  let parts := splitOnDot input
  let parts := if parts.getLast? == some [] && 1 < parts.length then parts.dropLast else parts
  if 4 < parts.length then none
  else
    match allSome (parts.map ipv4NumberParser) with
    | none => none
    | some numbers =>
      match numbers.getLast? with
      | none => none
      | some last =>
        if numbers.dropLast.any (fun n => 255 < n) then none
        else if 256 ^ (5 - numbers.length) ≤ last then none
        else some (ipv4Combine last numbers.dropLast 0)

/-- One decimal part of the IPv4 tail of an IPv6 address: ASCII digits, no
leading zero before another digit, at most 255. -/
def ipv4InIpv6Piece (part : List Char) : Option Nat :=
  match part with
  | [] => none
  | d :: rest =>
    if !part.all isAsciiDigit then none
    else if d == '0' && !rest.isEmpty then none
    else if 255 < radixValue 10 part then none
    else some (radixValue 10 part)

/-- The state of the IPv6 parser: the address, the piece index and the
position of the compression. -/
structure Ipv6State where
  address : List Nat
  pieceIndex : Nat
  compress : Option Nat

/-- Stores a finished piece and moves to the next one. -/
def Ipv6State.store (st : Ipv6State) (value : Nat) : Ipv6State :=
  { st with address := st.address.set st.pieceIndex value, pieceIndex := st.pieceIndex + 1 }

/-- The main loop of the IPv6 parser, one code point a step. `piece` is the
value and the code points of the piece being read, `none` between pieces. -/
def ipv6Loop (st : Ipv6State) (piece : Option (Nat × List Char)) :
    List Char → Option Ipv6State
  | [] =>
    match piece with
    | none => some st
    | some (value, _) => some (st.store value)
  | c :: cs =>
    match piece with
    | none =>
      if st.pieceIndex == 8 then none
      else if c == ':' then
        if st.compress.isSome then none
        else ipv6Loop { st with pieceIndex := st.pieceIndex + 1,
                                compress := some (st.pieceIndex + 1) } none cs
      else if isAsciiHexDigit c then ipv6Loop st (some (digitValue c, [c])) cs
      else none
    | some (value, read) =>
      if read.length < 4 && isAsciiHexDigit c then
        ipv6Loop st (some (value * 16 + digitValue c, read ++ [c])) cs
      else if c == '.' then
        if 6 < st.pieceIndex then none
        else
          match allSome ((splitOnDot (read ++ c :: cs)).map ipv4InIpv6Piece) with
          | some [n0, n1, n2, n3] =>
            some ((st.store (n0 * 256 + n1)).store (n2 * 256 + n3))
          | _ => none
      else if c == ':' then
        if cs.isEmpty then none else ipv6Loop (st.store value) none cs
      else none

/-- The swaps that move the pieces read after the compression to the end of
the address. -/
def ipv6Swap (compress : Nat) : Nat → Nat → List Nat → List Nat
  | 0, _, address => address
  | _, 0, address => address
  | pieceIndex + 1, swaps + 1, address =>
    let i := pieceIndex + 1
    let j := compress + (swaps + 1) - 1
    ipv6Swap compress pieceIndex swaps
      ((address.set i (address.getD j 0)).set j (address.getD i 0))

/-- IPv6 parser. -/
def ipv6Parser (input : List Char) : Option (List Nat) :=
  let zero : Ipv6State := { address := List.replicate 8 0, pieceIndex := 0, compress := none }
  let start : Option (Ipv6State × List Char) :=
    match input with
    | ':' :: ':' :: rest => some ({ zero with pieceIndex := 1, compress := some 1 }, rest)
    | ':' :: _ => none
    | _ => some (zero, input)
  match start with
  | none => none
  | some (st, rest) =>
    match ipv6Loop st none rest with
    | none => none
    | some st =>
      match st.compress with
      | some k => some (ipv6Swap k 7 (st.pieceIndex - k) st.address)
      | none => if st.pieceIndex != 8 then none else some st.address

/-- Opaque-host parser: a host of a URL that is not special is kept verbatim,
percent-encoded, unless it has a forbidden host code point. -/
def verbatimHostParser (input : List Char) : Option Host :=
  if input.any isForbiddenHostCodePoint then none
  else some (Host.verbatim (input.flatMap percentEncodeC0))

/-- Whether a label of the domain starts with `xn--` in any letter case. -/
def hasPunycodeLabel (domain : List Char) : Bool :=
  (splitOnDot domain).any (fun label => ['x', 'n', '-', '-'].isPrefixOf (label.map Char.toLower))

/-- Domain to ASCII (with `beStrict` false) on the percent-decoded bytes of a
domain. For a plain ASCII domain without an `xn--` label, `Unicode ToASCII` is
ASCII lower-casing; any other domain is handed to `idna`. An empty result and
a result with a forbidden domain code point are failures. -/
def domainToASCII (idna : Idna) (bytes : List Nat) : Option (List Char) :=
  let result :=
    if bytes.all (fun b => b < 0x80) && !hasPunycodeLabel (bytes.map Char.ofNat) then
      some ((bytes.map Char.ofNat).map Char.toLower)
    else idna.toASCII bytes
  match result with
  | none => none
  | some ascii =>
    if ascii.isEmpty then none
    else if ascii.any isForbiddenDomainCodePoint then none
    else some ascii

/-- Host parser; `verbatim` is the standard's `isOpaque`. -/
def hostParser (idna : Idna) (input : List Char) (verbatim : Bool) : Option Host :=
  match input with
  | '[' :: rest =>
    if rest.getLast? != some ']' then none
    else (ipv6Parser rest.dropLast).map Host.ipv6
  | _ =>
    if verbatim then verbatimHostParser input
    else
      match domainToASCII idna (percentDecode (input.flatMap utf8Encode)) with
      | none => none
      | some asciiDomain =>
        if endsInANumber asciiDomain then (ipv4Parser asciiDomain).map Host.ipv4
        else some (Host.domain asciiDomain)

/-- IPv4 serializer. -/
def ipv4Serialize (address : Nat) : List Char :=
  Nat.toDigits 10 (address / 256 ^ 3 % 256) ++ '.' :: Nat.toDigits 10 (address / 256 ^ 2 % 256) ++
    '.' :: Nat.toDigits 10 (address / 256 % 256) ++ '.' :: Nat.toDigits 10 (address % 256)

/-- The number of 0 pieces at the head of a list of pieces. -/
def zeroRun : List Nat → Nat
  | [] => 0
  | p :: ps => if p == 0 then zeroRun ps + 1 else 0

/-- The index of the first longest run of 0 pieces that is longer than
`longest`, or `best` when there is none; `index` is the index of the head. -/
def ipv6CompressIndex (index : Nat) (best : Option Nat) (longest : Nat) :
    List Nat → Option Nat
  | [] => best
  | p :: ps =>
    if longest < zeroRun (p :: ps) then
      ipv6CompressIndex (index + 1) (some index) (zeroRun (p :: ps)) ps
    else ipv6CompressIndex (index + 1) best longest ps

/-- The loop of the IPv6 serializer over the pieces from `pieceIndex` on. -/
def ipv6SerializeFrom (compress : Option Nat) (pieceIndex : Nat) (ignore0 : Bool) :
    List Nat → List Char
  | [] => []
  | p :: ps =>
    if ignore0 && p == 0 then ipv6SerializeFrom compress (pieceIndex + 1) true ps
    else if compress == some pieceIndex then
      (if pieceIndex == 0 then [':', ':'] else [':']) ++
        ipv6SerializeFrom compress (pieceIndex + 1) true ps
    else
      Nat.toDigits 16 p ++ (if pieceIndex != 7 then [':'] else []) ++
        ipv6SerializeFrom compress (pieceIndex + 1) false ps

/-- Host serializer. -/
def Host.serialize : Host → List Char
  | .domain name => name
  | .ipv4 address => ipv4Serialize address
  | .ipv6 pieces =>
    '[' :: ipv6SerializeFrom (ipv6CompressIndex 0 none 1 pieces) 0 false pieces ++ [']']
  | .verbatim name => name

/-- What the parser settles of a URL record: the scheme and the host (`none`
is a null host, `some (.verbatim [])` the empty host). -/
structure URLRecord where
  scheme : List Char
  host : Option Host

/-- The `protocol` getter: the scheme followed by `:`. -/
def URLRecord.protocol (u : URLRecord) : List Char :=
  u.scheme ++ [':']

/-- The `hostname` getter: the empty string for a null host, else the
serialized host. -/
def URLRecord.hostname (u : URLRecord) : List Char :=
  match u.host with
  | none => []
  | some h => h.serialize

/-- Special schemes. -/
def isSpecialScheme (scheme : List Char) : Bool :=
  scheme == ['f', 't', 'p'] || scheme == ['f', 'i', 'l', 'e'] ||
  scheme == ['h', 't', 't', 'p'] || scheme == ['h', 't', 't', 'p', 's'] ||
  scheme == ['w', 's'] || scheme == ['w', 's', 's']

/-- Removes leading and trailing C0 control or space, then every ASCII tab or
newline. -/
def stripInput (input : List Char) : List Char :=
  (((input.dropWhile isC0ControlOrSpace).reverse.dropWhile isC0ControlOrSpace).reverse).filter
    (fun c => !isAsciiTabOrNewline c)

/-- Scheme state: reads the rest of the scheme up to `:` and returns the
scheme and what follows the colon. Without a base URL, anything else ends in
the no scheme state, which fails. -/
def schemeState (buffer : List Char) : List Char → Option (List Char × List Char)
  | [] => none
  | c :: cs =>
    if isAsciiAlphanumeric c || c == '+' || c == '-' || c == '.' then
      schemeState (buffer ++ [c.toLower]) cs
    else if c == ':' then some (buffer, cs)
    else none

/-- Scheme start state. -/
def schemeStartState : List Char → Option (List Char × List Char)
  | [] => none
  | c :: cs => if isAsciiAlpha c then schemeState [c.toLower] cs else none

/-- Special authority ignore slashes state: skips every `/` and `\`. -/
def specialAuthorityIgnoreSlashesState : List Char → List Char
  | [] => []
  | c :: cs =>
    if c == '/' || c == '\\' then specialAuthorityIgnoreSlashesState cs else c :: cs

/-- Special authority slashes state. -/
def specialAuthoritySlashesState : List Char → List Char
  | '/' :: '/' :: cs => specialAuthorityIgnoreSlashesState cs
  | cs => specialAuthorityIgnoreSlashesState cs

/-- The code points that end the authority: `/`, `?`, `#`, and `\` in a
special URL. -/
def endsAuthority (special : Bool) (c : Char) : Bool :=
  c == '/' || c == '?' || c == '#' || (special && c == '\\')

/-- Authority state: skips the credentials and returns the input from where
the host state starts; fails when an `@` is followed by an empty host. -/
def authorityState (special : Bool) (atSignSeen : Bool) (buffer : List Char) :
    List Char → Option (List Char)
  | [] => if atSignSeen && buffer.isEmpty then none else some buffer
  | c :: cs =>
    if c == '@' then authorityState special true [] cs
    else if endsAuthority special c then
      if atSignSeen && buffer.isEmpty then none else some (buffer ++ c :: cs)
    else authorityState special atSignSeen (buffer ++ [c]) cs

/-- Port state: whether the port is well formed (ASCII digits up to the end of
the authority, at most 65535). -/
def portState (special : Bool) (buffer : List Char) : List Char → Bool
  | [] => buffer.isEmpty || radixValue 10 buffer ≤ 65535
  | c :: cs =>
    if isAsciiDigit c then portState special (buffer ++ [c]) cs
    else if endsAuthority special c then buffer.isEmpty || radixValue 10 buffer ≤ 65535
    else false

/-- Host state, followed by the port state: the host of the URL, or `none` on
failure. -/
def hostState (idna : Idna) (special : Bool) (insideBrackets : Bool) (buffer : List Char) :
    List Char → Option Host
  | [] =>
    if special && buffer.isEmpty then none else hostParser idna buffer (!special)
  | c :: cs =>
    if c == ':' && !insideBrackets then
      if buffer.isEmpty then none
      else
        match hostParser idna buffer (!special) with
        | none => none
        | some host => if portState special [] cs then some host else none
    else if endsAuthority special c then
      if special && buffer.isEmpty then none else hostParser idna buffer (!special)
    else
      hostState idna special
        (if c == '[' then true else if c == ']' then false else insideBrackets)
        (buffer ++ [c]) cs

/-- A Windows drive letter: an ASCII alpha followed by `:` or `|`. -/
def isWindowsDriveLetter (s : List Char) : Bool :=
  match s with
  | [a, b] => isAsciiAlpha a && (b == ':' || b == '|')
  | _ => false

/-- The end of the file host state, with the host's code points in `buffer`:
a Windows drive letter and an empty buffer leave the empty host, and the host
`localhost` becomes the empty host. -/
def fileHostEnd (idna : Idna) (buffer : List Char) : Option Host :=
  if isWindowsDriveLetter buffer || buffer.isEmpty then some (Host.verbatim [])
  else
    match hostParser idna buffer false with
    | none => none
    | some host =>
      if host.serialize == ['l', 'o', 'c', 'a', 'l', 'h', 'o', 's', 't'] then
        some (Host.verbatim [])
      else some host

/-- File host state: the host of a `file` URL, or `none` on failure. -/
def fileHostState (idna : Idna) (buffer : List Char) : List Char → Option Host
  | [] => fileHostEnd idna buffer
  | c :: cs =>
    if c == '/' || c == '\\' || c == '?' || c == '#' then fileHostEnd idna buffer
    else fileHostState idna (buffer ++ [c]) cs

/-- File state and file slash state: a host is only read after `//` (either
slash may be a backslash); otherwise the host stays the empty host. -/
def fileState (idna : Idna) (input : List Char) : Option Host :=
  match input with
  | a :: b :: rest =>
    if (a == '/' || a == '\\') && (b == '/' || b == '\\') then fileHostState idna [] rest
    else some (Host.verbatim [])
  | _ => some (Host.verbatim [])

/-- The basic URL parser without a base URL: the record `new URL(input)`
builds, or `none` when the constructor throws. -/
def URL.parse (idna : Idna) (input : List Char) : Option URLRecord :=
  match schemeStartState (stripInput input) with
  | none => none
  | some (scheme, rest) =>
    if scheme == ['f', 'i', 'l', 'e'] then
      (fileState idna rest).map (fun host => { scheme := scheme, host := some host })
    else if isSpecialScheme scheme then
      match authorityState true false [] (specialAuthoritySlashesState rest) with
      | none => none
      | some fromHost =>
        (hostState idna true false [] fromHost).map
          (fun host => { scheme := scheme, host := some host })
    else
      match rest with
      | '/' :: '/' :: afterSlashes =>
        match authorityState false false [] afterSlashes with
        | none => none
        | some fromHost =>
          (hostState idna false false [] fromHost).map
            (fun host => { scheme := scheme, host := some host })
      | _ => some { scheme := scheme, host := none }

/-! ## `script.js` -/

/-- The pattern `/^(https?:\/\/|www\.)/i` of `isProbablyUrl`. -/
def urlPrefixPattern : RegExp :=
  { anchorStart := true
    body := .alt (.seq (Regex.lit ['h', 't', 't', 'p'])
                    (.seq (Regex.opt (.chr 's')) (Regex.lit [':', '/', '/'])))
                 (Regex.lit ['w', 'w', 'w', '.'])
    anchorEnd := false
    ignoreCase := true }

/-- Utility: detect likely URL. `text` is a string or absent. -/
def isProbablyUrl (idna : Idna) (text : Option (List Char)) : Bool :=
  let str := trim (orEmpty text)
  match URL.parse idna str with
  | some u => truthy u.protocol && truthy u.hostname
  | none => urlPrefixPattern.test str

/-- A content category: its label and its key. -/
structure ContentType where
  label : String
  key : String
  deriving DecidableEq, Repr

/-- The pattern `/^WIFI:/i`. -/
def wifiPattern : RegExp :=
  { anchorStart := true, body := Regex.lit ['W', 'I', 'F', 'I', ':'],
    anchorEnd := false, ignoreCase := true }

/-- The pattern `/^(BEGIN:VCARD|MECARD:)/i`. -/
def contactPattern : RegExp :=
  { anchorStart := true
    body := .alt (Regex.lit ['B', 'E', 'G', 'I', 'N', ':', 'V', 'C', 'A', 'R', 'D'])
                 (Regex.lit ['M', 'E', 'C', 'A', 'R', 'D', ':'])
    anchorEnd := false
    ignoreCase := true }

/-- The pattern `/^mailto:/i`. -/
def mailtoPattern : RegExp :=
  { anchorStart := true, body := Regex.lit ['m', 'a', 'i', 'l', 't', 'o', ':'],
    anchorEnd := false, ignoreCase := true }

/-- The class `[^@\s]`. -/
def notAtOrSpace : Regex :=
  .cls true [.single '@', .space]

/-- The pattern `/^[^@\s]+@[^@\s]+\.[^@\s]+$/i`. -/
def emailPattern : RegExp :=
  { anchorStart := true
    body := .seq (Regex.plus notAtOrSpace)
              (.seq (.chr '@')
                (.seq (Regex.plus notAtOrSpace) (.seq (.chr '.') (Regex.plus notAtOrSpace))))
    anchorEnd := true
    ignoreCase := true }

/-- The pattern `/^tel:/i`. -/
def telPattern : RegExp :=
  { anchorStart := true, body := Regex.lit ['t', 'e', 'l', ':'],
    anchorEnd := false, ignoreCase := true }

/-- The class `[0-9\s\-().]`. -/
def phoneChar : Regex :=
  .cls false [.range '0' '9', .space, .single '-', .single '(', .single ')', .single '.']

/-- The pattern `/^\+?[0-9\s\-().]{7,}$/i`. -/
def phonePattern : RegExp :=
  { anchorStart := true
    body := .seq (Regex.opt (.chr '+')) (Regex.atLeast 7 phoneChar)
    anchorEnd := true
    ignoreCase := true }

/-- The pattern `/^geo:/i`. -/
def geoPattern : RegExp :=
  { anchorStart := true, body := Regex.lit ['g', 'e', 'o', ':'],
    anchorEnd := false, ignoreCase := true }

/-- The pattern `/^BEGIN:VEVENT/i`. -/
def eventPattern : RegExp :=
  { anchorStart := true
    body := Regex.lit ['B', 'E', 'G', 'I', 'N', ':', 'V', 'E', 'V', 'E', 'N', 'T']
    anchorEnd := false
    ignoreCase := true }

/-- Utility: classify content type for nicer UI. `text` is a string or absent. -/
def classifyContent (idna : Idna) (text : Option (List Char)) : ContentType :=
  let t := trim (orEmpty text)
  if wifiPattern.test t then { label := "Wi\u2011Fi config", key := "wifi" }
  else if contactPattern.test t then { label := "Contact", key := "contact" }
  else if isProbablyUrl idna (some t) then { label := "URL", key := "url" }
  else if mailtoPattern.test t || emailPattern.test t then { label := "Email", key := "email" }
  else if telPattern.test t || phonePattern.test t then { label := "Phone", key := "phone" }
  else if geoPattern.test t then { label := "Location", key := "geo" }
  else if eventPattern.test t then { label := "Event", key := "event" }
  else { label := "Text", key := "text" }

/-! ### The page

The state the handlers of `script.js` read and write: the variable
`lastDecoded` and the properties of the DOM elements they touch. The await
inside a handler is taken as one step: an event carries the outcome of the
external call (`scanFile`, `clipboard.writeText`) it waits for. -/

/-- The variable `lastDecoded` and the DOM properties the handlers use. -/
structure Page where
  lastDecoded : List Char
  fileInputValue : List Char
  previewSrc : List Char
  previewHidden : Bool
  statusText : List Char
  resultBoxHidden : Bool
  decodedText : List Char
  actionBarHidden : Bool
  fileNameText : List Char
  fileNameHidden : Bool
  contentTypeText : List Char
  contentTypeHidden : Bool
  deriving DecidableEq, Repr

/-- What a handler asks of the outside world. -/
inductive Effect where
  | windowOpen (url target features : List Char)
  | alert (message : List Char)
  | clipboardWrite (text : List Char)
  | consoleError
  deriving DecidableEq, Repr

/-- The first file of a `change` event: its name, the object URL made for it,
and the outcome of `html5QrCode.scanFile` on it (`none` when it rejects). -/
structure SelectedFile where
  name : List Char
  objectUrl : List Char
  scan : Option (List Char)
  deriving DecidableEq, Repr

/-- Handle file selection: the `change` handler of the file input; `file` is
`none` when no file is selected. The `finally` branch only registers the
`onload` callback that releases the object URL and touches nothing of the
page. -/
def fileInputChange (idna : Idna) (p : Page) (file : Option SelectedFile) : Page × List Effect :=
  match file with
  | none =>
    ({ p with statusText := "No file selected.".toList, fileNameHidden := true }, [])
  | some imageFile =>
    let p := { p with fileNameText := imageFile.name, fileNameHidden := false,
                      previewSrc := imageFile.objectUrl, previewHidden := false,
                      statusText := "Scanning image for QR code...".toList }
    match imageFile.scan with
    | some decoded =>
      let type := classifyContent idna (some decoded)
      ({ p with lastDecoded := decoded, decodedText := decoded,
                resultBoxHidden := false, actionBarHidden := false,
                contentTypeText := "Type: ".toList ++ type.label.toList,
                contentTypeHidden := false,
                statusText := "QR code found and decoded.".toList }, [])
    | none =>
      ({ p with resultBoxHidden := true, actionBarHidden := true, decodedText := [],
                contentTypeHidden := true,
                statusText := "No QR code found in the image, or decoding failed.".toList },
        [Effect.consoleError])

/-- The `click` handler of the Open button. -/
def openBtnClick (idna : Idna) (p : Page) : Page × List Effect :=
  if !truthy p.lastDecoded then (p, [])
  else
    let text := trim p.lastDecoded
    if isProbablyUrl idna (some text) then
      let url := if startsWith text "http".toList then text else "https://".toList ++ text
      (p, [Effect.windowOpen url "_blank".toList "noopener,noreferrer".toList])
    else (p, [Effect.alert "Decoded content is not a URL.".toList])

/-- The `click` handler of the Copy button; `written` tells whether
`navigator.clipboard.writeText` resolved. -/
def copyBtnClick (p : Page) (written : Bool) : Page × List Effect :=
  if !truthy p.lastDecoded then (p, [])
  else
    ({ p with statusText := if written then "Copied decoded text to clipboard.".toList
                            else "Unable to copy to clipboard.".toList },
      [Effect.clipboardWrite p.lastDecoded])

/-- The pattern `/\/redeem\/[A-Za-z0-9\-_]+/`. -/
def redeemPattern : RegExp :=
  { anchorStart := false
    body := .seq (Regex.lit ['/', 'r', 'e', 'd', 'e', 'e', 'm', '/'])
              (Regex.plus (.cls false [.range 'A' 'Z', .range 'a' 'z', .range '0' '9',
                                        .single '-', .single '_']))
    anchorEnd := false
    ignoreCase := false }

/-- The pattern with source `^CODE-` and no flags. -/
def codePattern : RegExp :=
  { anchorStart := true, body := Regex.lit ['C', 'O', 'D', 'E', '-'],
    anchorEnd := false, ignoreCase := false }

/-- The `click` handler of the custom action button. -/
def customBtnClick (idna : Idna) (p : Page) : Page × List Effect :=
  if !truthy p.lastDecoded then (p, [])
  else
    let text := trim p.lastDecoded
    if isProbablyUrl idna (some text) && redeemPattern.test text then
      (p, [Effect.alert ("Custom action: handle redeem flow for URL: ".toList ++ text)])
    else if codePattern.test text then
      (p, [Effect.alert ("Custom action: validate code ".toList ++ text)])
    else
      let typeKey := (classifyContent idna (some text)).key
      (p, [Effect.alert ("No custom rule matched. Type: ".toList ++ typeKey.toList ++
                          ". Decoded content shown above.".toList)])

/-- Clear UI: the `click` handler of the Clear button. -/
def clearBtnClick (p : Page) : Page × List Effect :=
  ({ p with fileInputValue := [], previewSrc := [], previewHidden := true,
            resultBoxHidden := true, actionBarHidden := true, decodedText := [],
            lastDecoded := [], fileNameHidden := true, contentTypeHidden := true,
            statusText := "Select an image with a QR code.".toList }, [])

/-- The three action buttons; Copy carries the outcome of the clipboard write. -/
inductive Action where
  | open
  | copy (written : Bool)
  | custom
  deriving DecidableEq, Repr

/-- The events of the page. -/
inductive Event where
  | change (file : Option SelectedFile)
  | action (a : Action)
  | clear
  deriving DecidableEq, Repr

/-- One event: the handler registered for it runs on the page. -/
def step (idna : Idna) (p : Page) : Event → Page × List Effect
  | .change file => fileInputChange idna p file
  | .action .open => openBtnClick idna p
  | .action (.copy written) => copyBtnClick p written
  | .action .custom => customBtnClick idna p
  | .clear => clearBtnClick p

/-- A sequence of events, with all the effects in order. -/
def run (idna : Idna) (p : Page) : List Event → Page × List Effect
  | [] => (p, [])
  | e :: es =>
    let r := step idna p e
    let rs := run idna r.1 es
    (rs.1, r.2 ++ rs.2)

/-- Whether the event is a click on one of the three action buttons. -/
def Event.isAction : Event → Bool
  | .action _ => true
  | _ => false

/-- Whether the event is a decode that succeeds with a non-empty text, the
only event that puts a non-empty text into `lastDecoded`. -/
def Event.storesText : Event → Bool
  | .change (some file) =>
    match file.scan with
    | some decoded => !decoded.isEmpty
    | none => false
  | _ => false

/-- The page when the script has run: the DOM as the markup gives it, and
`lastDecoded = ""`. -/
def Page.initial (markup : Page) : Page :=
  { markup with lastDecoded := [] }

/-! ## The specification's words

Definitions that follow the specification's sentences, to be compared with the
definitions taken from `script.js`. -/

/-- The string `s` starts with `pre` in any letter case. -/
def Spec.startsWithAnyCase (s pre : List Char) : Bool :=
  (pre.map Char.toUpper).isPrefixOf (s.map Char.toUpper)

/-- Whether a parsed URL has a non-empty host. -/
def Spec.hasHost (u : URLRecord) : Bool :=
  match u.host with
  | none => false
  | some h => !h.serialize.isEmpty

/-- The URL heuristic of the specification: trim; empty text is not a URL; if
strict parsing succeeds, the scheme and the host must both be non-empty; if it
fails, the trimmed text must start with `http://`, `https://` or `www.` in any
letter case. -/
def Spec.looksLikeUrl (idna : Idna) (text : Option (List Char)) : Bool :=
  let t := trim (orEmpty text)
  if t.isEmpty then false
  else
    match URL.parse idna t with
    | some u => !u.scheme.isEmpty && Spec.hasHost u
    | none =>
      Spec.startsWithAnyCase t "http://".toList || Spec.startsWithAnyCase t "https://".toList ||
        Spec.startsWithAnyCase t "www.".toList

/-- The eight categories as the specification lists them. -/
def Spec.listedCategories : List ContentType :=
  [{ label := "Wi-Fi config", key := "wifi" }, { label := "Contact", key := "contact" },
   { label := "URL", key := "url" }, { label := "Email", key := "email" },
   { label := "Phone", key := "phone" }, { label := "Location", key := "geo" },
   { label := "Event", key := "event" }, { label := "Text", key := "text" }]

/-- The eight categories `classifyContent` returns, as `script.js` writes
them: the label of the first one has a non-breaking hyphen (U+2011). -/
def returnedCategories : List ContentType :=
  [{ label := "Wi\u2011Fi config", key := "wifi" }, { label := "Contact", key := "contact" },
   { label := "URL", key := "url" }, { label := "Email", key := "email" },
   { label := "Phone", key := "phone" }, { label := "Location", key := "geo" },
   { label := "Event", key := "event" }, { label := "Text", key := "text" }]

/-- The phone-like character set of the specification: digits, space, `+`,
`-`, `(`, `)` and `.`. -/
def Spec.isPhoneSetChar (c : Char) : Bool :=
  isAsciiDigit c || c == ' ' || c == '+' || c == '-' || c == '(' || c == ')' || c == '.'

/-- The phone-like character set without `+`. -/
def Spec.isPhoneBodyChar (c : Char) : Bool :=
  isAsciiDigit c || c == ' ' || c == '-' || c == '(' || c == ')' || c == '.'

/-- A letter, a digit, `-` or `_`. -/
def Spec.isRedeemChar (c : Char) : Bool :=
  isAsciiAlphanumeric c || c == '-' || c == '_'

/-- Whether the string starts with `/redeem/` followed by a letter, a digit,
`-` or `_`. -/
def Spec.startsWithRedeemSegment (t : List Char) : Bool :=
  "/redeem/".toList.isPrefixOf t &&
    (match t.drop 8 with
     | c :: _ => Spec.isRedeemChar c
     | [] => false)

/-- Whether the text contains `/redeem/` followed by at least one letter,
digit, `-` or `_`. -/
def Spec.hasRedeemSegment (s : List Char) : Bool :=
  s.tails.any Spec.startsWithRedeemSegment

/-- The outcomes of the custom action. -/
inductive Spec.CustomOutcome where
  | redeemFlow (text : List Char)
  | codeValidation (text : List Char)
  | noRule (key : String)
  deriving DecidableEq, Repr

/-- The custom action of the specification on a decoded text: the rules are
tried in order on the trimmed text and the first match wins. -/
def Spec.customAction (idna : Idna) (decoded : List Char) : Spec.CustomOutcome :=
  let text := trim decoded
  if isProbablyUrl idna (some text) && Spec.hasRedeemSegment text then .redeemFlow text
  else if startsWith text "CODE-".toList then .codeValidation text
  else .noRule (classifyContent idna (some text)).key

/-- The message `script.js` shows for an outcome of the custom action. -/
def customMessage : Spec.CustomOutcome → List Char
  | .redeemFlow text => "Custom action: handle redeem flow for URL: ".toList ++ text
  | .codeValidation text => "Custom action: validate code ".toList ++ text
  | .noRule key =>
    "No custom rule matched. Type: ".toList ++ key.toList ++ ". Decoded content shown above.".toList

/-- A page with nothing on it and `text` in `lastDecoded`; statements at
concrete inputs start from it. -/
def Page.holding (text : List Char) : Page :=
  { lastDecoded := text, fileInputValue := [], previewSrc := [], previewHidden := true,
    statusText := [], resultBoxHidden := true, decodedText := [], actionBarHidden := true,
    fileNameText := [], fileNameHidden := true, contentTypeText := [],
    contentTypeHidden := true }

/-- An `Idna` that fails on every domain handed to it; it instantiates
statements at concrete inputs, none of which reaches it. -/
def Idna.failing : Idna :=
  { toASCII := fun _ => none }

/-! ## The matcher decides the language -/

theorem Regex.nullable_iff (ic : Bool) (r : Regex) :
    r.nullable = true ↔ Regex.Matches ic r [] := by
  induction r with
  | none => exact ⟨fun h => by simp [Regex.nullable] at h, fun h => by cases h⟩
  | eps => exact ⟨fun _ => .eps, fun _ => rfl⟩
  | chr a => exact ⟨fun h => by simp [Regex.nullable] at h, fun h => by cases h⟩
  | cls n items => exact ⟨fun h => by simp [Regex.nullable] at h, fun h => by cases h⟩
  | seq a b iha ihb =>
    constructor
    · intro h
      simp only [Regex.nullable, Bool.and_eq_true] at h
      exact Regex.Matches.seq (iha.1 h.1) (ihb.1 h.2)
    · intro h
      generalize hs : ([] : List Char) = u at h
      cases h with
      | seq h1 h2 =>
        rename_i s t
        have hst := List.append_eq_nil.1 hs.symm
        rw [hst.1] at h1
        rw [hst.2] at h2
        simp [Regex.nullable, iha.2 h1, ihb.2 h2]
  | alt a b iha ihb =>
    constructor
    · intro h
      simp only [Regex.nullable, Bool.or_eq_true] at h
      rcases h with h | h
      · exact .altL (iha.1 h)
      · exact .altR (ihb.1 h)
    · intro h
      cases h with
      | altL h1 => simp [Regex.nullable, iha.2 h1]
      | altR h1 => simp [Regex.nullable, ihb.2 h1]
  | star a _ => exact ⟨fun _ => .starNil, fun _ => rfl⟩

/-- A non-empty match of `r*` starts with a non-empty match of `r`. -/
theorem Regex.Matches.star_cons_inv {ic : Bool} {a : Regex} {u : List Char}
    (h : Regex.Matches ic (.star a) u) :
    ∀ c s, u = c :: s →
      ∃ s1 s2, s = s1 ++ s2 ∧ Regex.Matches ic a (c :: s1) ∧ Regex.Matches ic (.star a) s2 := by
  generalize hr : Regex.star a = r at h
  induction h with
  | eps => cases hr
  | chr _ => cases hr
  | cls _ => cases hr
  | seq _ _ _ _ => cases hr
  | altL _ _ => cases hr
  | altR _ _ => cases hr
  | starNil => intro c s hu; cases hu
  | @starCons a1 s1 t1 h1 h2 _ ih2 =>
    cases hr
    intro c s hu
    cases s1 with
    | nil => exact ih2 rfl c s (by simpa using hu)
    | cons d s1 =>
      simp only [List.cons_append, List.cons.injEq] at hu
      exact ⟨s1, t1, hu.2.symm, hu.1 ▸ h1, h2⟩

theorem Regex.deriv_iff (ic : Bool) (r : Regex) :
    ∀ (c : Char) (s : List Char),
      Regex.Matches ic (r.deriv ic c) s ↔ Regex.Matches ic r (c :: s) := by
  induction r with
  | none => intro c s; exact ⟨fun h => (by cases h), fun h => (by cases h)⟩
  | eps => intro c s; exact ⟨fun h => (by cases h), fun h => (by cases h)⟩
  | chr a =>
    intro c s
    simp only [Regex.deriv]
    constructor
    · intro h
      split at h
      · cases h; exact .chr (by assumption)
      · cases h
    · intro h
      cases h with
      | chr h1 => simp only [h1, if_true]; exact .eps
  | cls n items =>
    intro c s
    simp only [Regex.deriv]
    constructor
    · intro h
      split at h
      · cases h; exact .cls (by assumption)
      · cases h
    · intro h
      cases h with
      | cls h1 => simp only [h1, if_true]; exact .eps
  | seq a b iha ihb =>
    intro c s
    simp only [Regex.deriv]
    constructor
    · intro h
      split at h
      · rename_i hn
        cases h with
        | altL h1 =>
          cases h1 with
          | seq h2 h3 => exact Regex.Matches.seq ((iha c _).1 h2) h3
        | altR h1 =>
          exact Regex.Matches.seq ((Regex.nullable_iff ic a).1 hn) ((ihb c s).1 h1)
      · cases h with
        | seq h2 h3 => exact Regex.Matches.seq ((iha c _).1 h2) h3
    · intro h
      generalize hu : c :: s = u at h
      cases h with
      | seq h1 h2 =>
        rename_i s1 t1
        cases s1 with
        | nil =>
          have hn := (Regex.nullable_iff ic a).2 h1
          simp only [List.nil_append] at hu
          subst hu
          simp only [hn, if_true]
          exact .altR ((ihb c s).2 h2)
        | cons d s1 =>
          simp only [List.cons_append, List.cons.injEq] at hu
          obtain ⟨hd, hs⟩ := hu
          subst hd hs
          have h3 := Regex.Matches.seq ((iha c s1).2 h1) h2
          split
          · exact .altL h3
          · exact h3
  | alt a b iha ihb =>
    intro c s
    simp only [Regex.deriv]
    constructor
    · intro h
      cases h with
      | altL h1 => exact .altL ((iha c s).1 h1)
      | altR h1 => exact .altR ((ihb c s).1 h1)
    · intro h
      cases h with
      | altL h1 => exact .altL ((iha c s).2 h1)
      | altR h1 => exact .altR ((ihb c s).2 h1)
  | star a iha =>
    intro c s
    simp only [Regex.deriv]
    constructor
    · intro h
      cases h with
      | seq h1 h2 => exact Regex.Matches.starCons ((iha c _).1 h1) h2
    · intro h
      obtain ⟨s1, s2, hs, h1, h2⟩ := h.star_cons_inv c s rfl
      subst hs
      exact Regex.Matches.seq ((iha c s1).2 h1) h2

/-- The matcher for `^r$` decides the language of `r`. -/
theorem Regex.matchesAll_iff (ic : Bool) (r : Regex) (s : List Char) :
    r.matchesAll ic s = true ↔ Regex.Matches ic r s := by
  induction s generalizing r with
  | nil => exact Regex.nullable_iff ic r
  | cons c cs ih =>
    simp only [Regex.matchesAll]
    exact (ih (r.deriv ic c)).trans (Regex.deriv_iff ic r c cs)

/-- The matcher for `^r` finds a prefix in the language of `r`. -/
theorem Regex.matchesPrefix_iff (ic : Bool) (r : Regex) (s : List Char) :
    r.matchesPrefix ic s = true ↔ ∃ p q, s = p ++ q ∧ Regex.Matches ic r p := by
  induction s generalizing r with
  | nil =>
    simp only [Regex.matchesPrefix]
    constructor
    · intro h
      exact ⟨[], [], rfl, (Regex.nullable_iff ic r).1 h⟩
    · rintro ⟨p, q, hpq, h⟩
      have hp := (List.append_eq_nil.1 hpq.symm).1
      subst hp
      exact (Regex.nullable_iff ic r).2 h
  | cons c cs ih =>
    simp only [Regex.matchesPrefix, Bool.or_eq_true]
    constructor
    · rintro (h | h)
      · exact ⟨[], c :: cs, rfl, (Regex.nullable_iff ic r).1 h⟩
      · obtain ⟨p, q, hpq, hm⟩ := (ih _).1 h
        exact ⟨c :: p, q, by simp [hpq], (Regex.deriv_iff ic r c p).1 hm⟩
    · rintro ⟨p, q, hpq, hm⟩
      cases p with
      | nil => exact Or.inl ((Regex.nullable_iff ic r).2 hm)
      | cons d p =>
        simp only [List.cons_append, List.cons.injEq] at hpq
        obtain ⟨hd, hs⟩ := hpq
        subst hd
        exact Or.inr ((ih _).2 ⟨p, q, hs, (Regex.deriv_iff ic r c p).2 hm⟩)

/-! ## Characters -/

theorem toNat_ofNat_of_lt (n : Nat) (h : n < 0xD800) : (Char.ofNat n).toNat = n := by
  unfold Char.ofNat
  have hv : n.isValidChar := Or.inl h
  simp only [hv, dite_true]
  simp [Char.ofNatAux, Char.toNat, UInt32.toNat]

theorem char_eq_iff_toNat (a b : Char) : a = b ↔ a.toNat = b.toNat := by
  constructor
  · intro h; rw [h]
  · intro h
    rw [← Char.ofNat_toNat a, ← Char.ofNat_toNat b, h]

theorem toUpper_toNat (c : Char) :
    c.toUpper.toNat = if 97 ≤ c.toNat ∧ c.toNat ≤ 122 then c.toNat - 32 else c.toNat := by
  unfold Char.toUpper
  by_cases h : 97 ≤ c.toNat ∧ c.toNat ≤ 122
  · simp only [ge_iff_le, h, and_self, if_true]
    exact toNat_ofNat_of_lt _ (by omega)
  · simp only [ge_iff_le, h, if_false]

theorem toLower_toNat (c : Char) :
    c.toLower.toNat = if 65 ≤ c.toNat ∧ c.toNat ≤ 90 then c.toNat + 32 else c.toNat := by
  unfold Char.toLower
  by_cases h : 65 ≤ c.toNat ∧ c.toNat ≤ 90
  · simp only [ge_iff_le, h, and_self, if_true]
    exact toNat_ofNat_of_lt _ (by omega)
  · simp only [ge_iff_le, h, if_false]

/-- A character whose upper-case form is not a letter is that form itself. -/
theorem eq_of_toUpper_eq_nonletter {c x : Char} (hx : x.toNat < 65 ∨ 122 < x.toNat ∨
    (90 < x.toNat ∧ x.toNat < 97)) (h : c.toUpper = x) : c = x := by
  rw [char_eq_iff_toNat] at h ⊢
  rw [toUpper_toNat] at h
  split at h <;> omega

/-! ## Inversion of the language -/

theorem Regex.matches_eps_iff (ic : Bool) (s : List Char) :
    Regex.Matches ic .eps s ↔ s = [] := by
  constructor
  · intro h; cases h; rfl
  · intro h; subst h; exact .eps

theorem Regex.matches_chr_iff (ic : Bool) (a : Char) (s : List Char) :
    Regex.Matches ic (.chr a) s ↔ ∃ c, s = [c] ∧ canonicalize ic a = canonicalize ic c := by
  constructor
  · intro h
    cases h with
    | @chr _ c h1 => exact ⟨c, rfl, by simpa [Regex.accepts] using h1⟩
  · rintro ⟨c, rfl, h⟩
    exact .chr (by simpa [Regex.accepts] using h)

theorem Regex.matches_cls_iff (ic : Bool) (n : Bool) (items : List ClassItem) (s : List Char) :
    Regex.Matches ic (.cls n items) s ↔
      ∃ c, s = [c] ∧ (Regex.cls n items).accepts ic c = true := by
  constructor
  · intro h
    cases h with
    | @cls _ _ c h1 => exact ⟨c, rfl, h1⟩
  · rintro ⟨c, rfl, h⟩
    exact .cls h

theorem Regex.matches_seq_iff (ic : Bool) (a b : Regex) (s : List Char) :
    Regex.Matches ic (.seq a b) s ↔
      ∃ s1 s2, s = s1 ++ s2 ∧ Regex.Matches ic a s1 ∧ Regex.Matches ic b s2 := by
  constructor
  · intro h
    cases h with
    | @seq _ _ s1 s2 h1 h2 => exact ⟨s1, s2, rfl, h1, h2⟩
  · rintro ⟨s1, s2, rfl, h1, h2⟩
    exact .seq h1 h2

theorem Regex.matches_alt_iff (ic : Bool) (a b : Regex) (s : List Char) :
    Regex.Matches ic (.alt a b) s ↔ Regex.Matches ic a s ∨ Regex.Matches ic b s := by
  constructor
  · intro h
    cases h with
    | altL h1 => exact Or.inl h1
    | altR h1 => exact Or.inr h1
  · rintro (h | h)
    · exact .altL h
    · exact .altR h

/-- The star of a class matches exactly the strings of members of the class. -/
theorem Regex.matches_star_cls_iff (ic : Bool) (n : Bool) (items : List ClassItem)
    (s : List Char) :
    Regex.Matches ic (.star (.cls n items)) s ↔
      ∀ c ∈ s, (Regex.cls n items).accepts ic c = true := by
  constructor
  · intro h
    generalize hr : Regex.star (.cls n items) = r at h
    induction h with
    | eps => cases hr
    | chr _ => cases hr
    | cls _ => cases hr
    | seq _ _ _ _ => cases hr
    | altL _ _ => cases hr
    | altR _ _ => cases hr
    | starNil => intro c hc; cases hc
    | @starCons a1 s1 t1 h1 _ _ ih2 =>
      cases hr
      obtain ⟨d, hd, hacc⟩ := (Regex.matches_cls_iff ic n items s1).1 h1
      subst hd
      intro c hc
      simp only [List.singleton_append, List.mem_cons] at hc
      rcases hc with hc | hc
      · subst hc; exact hacc
      · exact ih2 rfl c hc
  · intro h
    induction s with
    | nil => exact .starNil
    | cons c cs ih =>
      have h1 : Regex.Matches ic (.cls n items) [c] := .cls (h c (List.mem_cons_self c cs))
      have h2 := ih (fun d hd => h d (List.mem_cons_of_mem c hd))
      exact Regex.Matches.starCons h1 h2

theorem Regex.matches_plus_cls_iff (ic : Bool) (n : Bool) (items : List ClassItem)
    (s : List Char) :
    Regex.Matches ic (Regex.plus (.cls n items)) s ↔
      s ≠ [] ∧ ∀ c ∈ s, (Regex.cls n items).accepts ic c = true := by
  unfold Regex.plus
  rw [Regex.matches_seq_iff]
  constructor
  · rintro ⟨s1, s2, rfl, h1, h2⟩
    obtain ⟨d, hd, hacc⟩ := (Regex.matches_cls_iff ic n items s1).1 h1
    subst hd
    refine ⟨by simp, ?_⟩
    intro c hc
    simp only [List.singleton_append, List.mem_cons] at hc
    rcases hc with hc | hc
    · subst hc; exact hacc
    · exact (Regex.matches_star_cls_iff ic n items s2).1 h2 c hc
  · rintro ⟨hne, h⟩
    cases s with
    | nil => exact (hne rfl).elim
    | cons c cs =>
      exact ⟨[c], cs, rfl, .cls (h c (List.mem_cons_self c cs)),
        (Regex.matches_star_cls_iff ic n items cs).2
          (fun d hd => h d (List.mem_cons_of_mem c hd))⟩

theorem Regex.matches_atLeast_cls_iff (ic : Bool) (n : Bool) (items : List ClassItem)
    (k : Nat) (s : List Char) :
    Regex.Matches ic (Regex.atLeast k (.cls n items)) s ↔
      k ≤ s.length ∧ ∀ c ∈ s, (Regex.cls n items).accepts ic c = true := by
  induction k generalizing s with
  | zero =>
    simp only [Regex.atLeast, Nat.zero_le, true_and]
    exact Regex.matches_star_cls_iff ic n items s
  | succ k ih =>
    simp only [Regex.atLeast]
    rw [Regex.matches_seq_iff]
    constructor
    · rintro ⟨s1, s2, rfl, h1, h2⟩
      obtain ⟨d, hd, hacc⟩ := (Regex.matches_cls_iff ic n items s1).1 h1
      subst hd
      obtain ⟨hlen, hall⟩ := (ih s2).1 h2
      refine ⟨by simp only [List.singleton_append, List.length_cons]; omega, ?_⟩
      intro c hc
      simp only [List.singleton_append, List.mem_cons] at hc
      rcases hc with hc | hc
      · subst hc; exact hacc
      · exact hall c hc
    · rintro ⟨hlen, h⟩
      cases s with
      | nil => simp at hlen
      | cons c cs =>
        simp only [List.length_cons] at hlen
        exact ⟨[c], cs, rfl, .cls (h c (List.mem_cons_self c cs)),
          (ih cs).2 ⟨by omega, fun d hd => h d (List.mem_cons_of_mem c hd)⟩⟩

/-- A literal matches the strings that agree with it character by character
after canonicalisation. -/
theorem Regex.matches_lit_iff (ic : Bool) (w s : List Char) :
    Regex.Matches ic (Regex.lit w) s ↔ s.map (canonicalize ic) = w.map (canonicalize ic) := by
  induction w generalizing s with
  | nil =>
    simp only [Regex.lit, List.map_nil, List.map_eq_nil_iff]
    exact Regex.matches_eps_iff ic s
  | cons a w ih =>
    cases w with
    | nil =>
      simp only [Regex.lit, List.map_cons, List.map_nil]
      rw [Regex.matches_chr_iff]
      constructor
      · rintro ⟨c, rfl, h⟩
        simp [h]
      · intro h
        cases s with
        | nil => simp at h
        | cons c cs =>
          simp only [List.map_cons, List.cons.injEq, List.map_eq_nil_iff] at h
          exact ⟨c, by rw [h.2], h.1.symm⟩
    | cons b w =>
      simp only [Regex.lit]
      rw [Regex.matches_seq_iff]
      constructor
      · rintro ⟨s1, s2, rfl, h1, h2⟩
        obtain ⟨c, hc, hcan⟩ := (Regex.matches_chr_iff ic a s1).1 h1
        subst hc
        have h3 := (ih s2).1 h2
        simp only [List.singleton_append, List.map_cons, List.cons.injEq]
        exact ⟨hcan.symm, by simpa using h3⟩
      · intro h
        cases s with
        | nil => simp at h
        | cons c cs =>
          simp only [List.map_cons, List.cons.injEq] at h
          exact ⟨[c], cs, rfl, (Regex.matches_chr_iff ic a [c]).2 ⟨c, rfl, h.1.symm⟩,
            (ih cs).2 (by simpa using h.2)⟩

/-! ## Patterns that test a prefix -/

theorem Regex.matchesPrefix_alt (ic : Bool) (a b : Regex) (s : List Char) :
    (Regex.alt a b).matchesPrefix ic s = (a.matchesPrefix ic s || b.matchesPrefix ic s) := by
  rw [Bool.eq_iff_iff, Bool.or_eq_true, Regex.matchesPrefix_iff, Regex.matchesPrefix_iff,
    Regex.matchesPrefix_iff]
  constructor
  · rintro ⟨p, q, hpq, h⟩
    rcases (Regex.matches_alt_iff ic a b p).1 h with h | h
    · exact Or.inl ⟨p, q, hpq, h⟩
    · exact Or.inr ⟨p, q, hpq, h⟩
  · rintro (⟨p, q, hpq, h⟩ | ⟨p, q, hpq, h⟩)
    · exact ⟨p, q, hpq, .altL h⟩
    · exact ⟨p, q, hpq, .altR h⟩

/-- Having a prefix that agrees with `w` up to `f` is having `w`'s image as a
prefix of the image. -/
theorem exists_prefix_map_iff (f : Char → Char) (w s : List Char) :
    (∃ p q, s = p ++ q ∧ p.map f = w.map f) ↔ (w.map f).isPrefixOf (s.map f) = true := by
  rw [List.isPrefixOf_iff_prefix]
  constructor
  · rintro ⟨p, q, rfl, h⟩
    rw [List.map_append, h]
    exact List.prefix_append _ _
  · rintro ⟨t, ht⟩
    obtain ⟨l1, l2, hs, h1, _⟩ := List.map_eq_append_iff.1 ht.symm
    exact ⟨l1, l2, hs, h1⟩

/-- A literal at the start of the pattern tests for a prefix, up to
canonicalisation. -/
theorem Regex.matchesPrefix_lit (ic : Bool) (w s : List Char) :
    (Regex.lit w).matchesPrefix ic s =
      (w.map (canonicalize ic)).isPrefixOf (s.map (canonicalize ic)) := by
  rw [Bool.eq_iff_iff, Regex.matchesPrefix_iff, ← exists_prefix_map_iff]
  constructor
  · rintro ⟨p, q, hpq, h⟩
    exact ⟨p, q, hpq, (Regex.matches_lit_iff ic w p).1 h⟩
  · rintro ⟨p, q, hpq, h⟩
    exact ⟨p, q, hpq, (Regex.matches_lit_iff ic w p).2 h⟩

/-- The body `u x? v` matches what `uv` and `uxv` match. -/
theorem Regex.matches_lit_opt_lit_iff (ic : Bool) (u v : List Char) (x : Char) (s : List Char) :
    Regex.Matches ic (.seq (Regex.lit u) (.seq (Regex.opt (.chr x)) (Regex.lit v))) s ↔
      Regex.Matches ic (Regex.lit (u ++ v)) s ∨ Regex.Matches ic (Regex.lit (u ++ x :: v)) s := by
  simp only [Regex.matches_seq_iff, Regex.matches_lit_iff, Regex.opt, Regex.matches_alt_iff,
    Regex.matches_chr_iff, Regex.matches_eps_iff, List.map_append, List.map_cons]
  constructor
  · rintro ⟨s1, s2, rfl, h1, s3, s4, rfl, h3 | h3, h4⟩
    · obtain ⟨c, rfl, hc⟩ := h3
      right
      simp [h1, h4, hc]
    · subst h3
      left
      simp [h1, h4]
  · rintro (h | h)
    · obtain ⟨l1, l2, rfl, h1, h2⟩ := List.map_eq_append_iff.1 h
      exact ⟨l1, l2, rfl, h1, [], l2, rfl, Or.inr rfl, h2⟩
    · obtain ⟨l1, l2, rfl, h1, h2⟩ := List.map_eq_append_iff.1 h
      cases l2 with
      | nil => simp at h2
      | cons c l2 =>
        simp only [List.map_cons, List.cons.injEq] at h2
        exact ⟨l1, c :: l2, rfl, h1, [c], l2, rfl, Or.inl ⟨c, rfl, h2.1.symm⟩, h2.2⟩

theorem Regex.matchesPrefix_lit_opt_lit (ic : Bool) (u v : List Char) (x : Char)
    (s : List Char) :
    (Regex.seq (Regex.lit u) (.seq (Regex.opt (.chr x)) (Regex.lit v))).matchesPrefix ic s =
      ((Regex.lit (u ++ v)).matchesPrefix ic s ||
        (Regex.lit (u ++ x :: v)).matchesPrefix ic s) := by
  rw [← Regex.matchesPrefix_alt, Bool.eq_iff_iff, Regex.matchesPrefix_iff,
    Regex.matchesPrefix_iff]
  constructor
  · rintro ⟨p, q, hpq, h⟩
    exact ⟨p, q, hpq, (Regex.matches_alt_iff ic _ _ p).2
      ((Regex.matches_lit_opt_lit_iff ic u v x p).1 h)⟩
  · rintro ⟨p, q, hpq, h⟩
    exact ⟨p, q, hpq, (Regex.matches_lit_opt_lit_iff ic u v x p).2
      ((Regex.matches_alt_iff ic _ _ p).1 h)⟩

theorem wifiPattern_test (s : List Char) :
    wifiPattern.test s = Spec.startsWithAnyCase s "WIFI:".toList := by
  simp only [RegExp.test, wifiPattern, Regex.matchesPrefix_lit, Spec.startsWithAnyCase]
  rfl

theorem contactPattern_test (s : List Char) :
    contactPattern.test s =
      (Spec.startsWithAnyCase s "BEGIN:VCARD".toList ||
        Spec.startsWithAnyCase s "MECARD:".toList) := by
  simp only [RegExp.test, contactPattern, Regex.matchesPrefix_alt, Regex.matchesPrefix_lit,
    Spec.startsWithAnyCase]
  rfl

theorem mailtoPattern_test (s : List Char) :
    mailtoPattern.test s = Spec.startsWithAnyCase s "mailto:".toList := by
  simp only [RegExp.test, mailtoPattern, Regex.matchesPrefix_lit, Spec.startsWithAnyCase]
  rfl

theorem telPattern_test (s : List Char) :
    telPattern.test s = Spec.startsWithAnyCase s "tel:".toList := by
  simp only [RegExp.test, telPattern, Regex.matchesPrefix_lit, Spec.startsWithAnyCase]
  rfl

theorem geoPattern_test (s : List Char) :
    geoPattern.test s = Spec.startsWithAnyCase s "geo:".toList := by
  simp only [RegExp.test, geoPattern, Regex.matchesPrefix_lit, Spec.startsWithAnyCase]
  rfl

theorem eventPattern_test (s : List Char) :
    eventPattern.test s = Spec.startsWithAnyCase s "BEGIN:VEVENT".toList := by
  simp only [RegExp.test, eventPattern, Regex.matchesPrefix_lit, Spec.startsWithAnyCase]
  rfl

theorem urlPrefixPattern_test (s : List Char) :
    urlPrefixPattern.test s =
      (Spec.startsWithAnyCase s "http://".toList || Spec.startsWithAnyCase s "https://".toList ||
        Spec.startsWithAnyCase s "www.".toList) := by
  simp only [RegExp.test, urlPrefixPattern, Regex.matchesPrefix_alt,
    Regex.matchesPrefix_lit_opt_lit, Regex.matchesPrefix_lit, Spec.startsWithAnyCase]
  rfl

theorem codePattern_test (s : List Char) :
    codePattern.test s = startsWith s "CODE-".toList := by
  have hid : canonicalize false = id := by
    funext c
    simp [canonicalize]
  simp only [RegExp.test, codePattern, Regex.matchesPrefix_lit, startsWith, hid, List.map_id]
  rfl

/-! ## Trimming -/

theorem trimEnd_eq_rdropWhile (s : List Char) : trimEnd s = s.rdropWhile isWhiteSpace := rfl

/-- Text made of whitespace only trims to the empty string. -/
theorem trim_of_all_whiteSpace (s : List Char) (h : ∀ c ∈ s, isWhiteSpace c = true) :
    trim s = [] := by
  have h1 : trimStart s = [] := List.dropWhile_eq_nil_iff.2 h
  rw [trim, h1]
  rfl

/-- Text without whitespace is left alone. -/
theorem trim_of_no_whiteSpace (s : List Char) (h : ∀ c ∈ s, isWhiteSpace c = false) :
    trim s = s := by
  have h1 : trimStart s = s := by
    cases s with
    | nil => rfl
    | cons c cs => simp [trimStart, List.dropWhile_cons, h c (List.mem_cons_self c cs)]
  rw [trim, h1, trimEnd_eq_rdropWhile, List.rdropWhile_eq_self_iff]
  intro hne
  rw [h _ (List.getLast_mem hne)]
  simp

/-- The trimmed text does not start with whitespace. -/
theorem trimStart_trim (s : List Char) : trimStart (trim s) = trim s := by
  have hpre : trim s <+: trimStart s := List.rdropWhile_prefix isWhiteSpace (trimStart s)
  cases hts : trim s with
  | nil => rfl
  | cons c cs =>
    rw [hts] at hpre
    obtain ⟨t, ht⟩ := hpre
    have hlen : 0 < (List.dropWhile isWhiteSpace s).length := by
      show 0 < (trimStart s).length
      rw [← ht]; simp
    have hnot := List.dropWhile_get_zero_not isWhiteSpace s hlen
    have hc : (List.dropWhile isWhiteSpace s).get ⟨0, hlen⟩ = c := by
      have : List.dropWhile isWhiteSpace s = c :: (cs ++ t) := by
        show trimStart s = _
        rw [← ht]; rfl
      simp [this]
    rw [hc] at hnot
    simp [trimStart, List.dropWhile_cons, hnot]

/-- Trimming twice is trimming once. -/
theorem trim_trim (s : List Char) : trim (trim s) = trim s := by
  show trimEnd (trimStart (trim s)) = trim s
  rw [trimStart_trim]
  show trimEnd (trimEnd (trimStart s)) = trimEnd (trimStart s)
  simp only [trimEnd_eq_rdropWhile, List.rdropWhile_idempotent]

/-! ## The URL parser -/

theorem schemeState_colon {buffer s : List Char} {r : List Char × List Char}
    (h : schemeState buffer s = some r) : ':' ∈ s := by
  induction s generalizing buffer with
  | nil => simp [schemeState] at h
  | cons c cs ih =>
    simp only [schemeState] at h
    split at h
    · exact List.mem_cons_of_mem c (ih h)
    · split at h
      · rename_i hc
        have : c = ':' := by simpa using hc
        rw [this]
        exact List.mem_cons_self _ _
      · cases h

theorem schemeState_ne_nil {buffer s : List Char} {r : List Char × List Char}
    (hb : buffer ≠ []) (h : schemeState buffer s = some r) : r.1 ≠ [] := by
  induction s generalizing buffer with
  | nil => simp [schemeState] at h
  | cons c cs ih =>
    simp only [schemeState] at h
    split at h
    · exact ih (by simp) h
    · split at h
      · cases h
        exact hb
      · cases h

theorem schemeStartState_colon {s : List Char} {r : List Char × List Char}
    (h : schemeStartState s = some r) : ':' ∈ s := by
  cases s with
  | nil => simp [schemeStartState] at h
  | cons c cs =>
    simp only [schemeStartState] at h
    split at h
    · exact List.mem_cons_of_mem c (schemeState_colon h)
    · cases h

theorem schemeStartState_ne_nil {s : List Char} {r : List Char × List Char}
    (h : schemeStartState s = some r) : r.1 ≠ [] := by
  cases s with
  | nil => simp [schemeStartState] at h
  | cons c cs =>
    simp only [schemeStartState] at h
    split at h
    · exact schemeState_ne_nil (by simp) h
    · cases h

theorem mem_of_mem_stripInput {s : List Char} {c : Char} (h : c ∈ stripInput s) : c ∈ s := by
  unfold stripInput at h
  have h1 := List.mem_of_mem_filter h
  rw [List.mem_reverse] at h1
  have h2 := (List.dropWhile_suffix isC0ControlOrSpace).subset h1
  rw [List.mem_reverse] at h2
  exact (List.dropWhile_suffix isC0ControlOrSpace).subset h2

/-- Without a colon there is no scheme, and the constructor throws. -/
theorem URL.parse_eq_none_of_no_colon (idna : Idna) (s : List Char) (h : ':' ∉ s) :
    URL.parse idna s = none := by
  unfold URL.parse
  cases hs : schemeStartState (stripInput s) with
  | none => rfl
  | some r => exact (h (mem_of_mem_stripInput (schemeStartState_colon hs))).elim

/-- A parsed URL has a scheme. -/
theorem URL.parse_scheme_ne_nil {idna : Idna} {s : List Char} {u : URLRecord}
    (h : URL.parse idna s = some u) : u.scheme ≠ [] := by
  unfold URL.parse at h
  cases hs : schemeStartState (stripInput s) with
  | none => rw [hs] at h; cases h
  | some r =>
    obtain ⟨scheme, rest⟩ := r
    have hne : scheme ≠ [] := schemeStartState_ne_nil hs
    rw [hs] at h
    simp only at h
    split at h
    · cases hf : fileState idna rest with
      | none => rw [hf] at h; cases h
      | some host => rw [hf] at h; cases h; exact hne
    · split at h
      · split at h
        · cases h
        · rename_i fromHost _
          cases hh : hostState idna true false [] fromHost with
          | none => rw [hh] at h; cases h
          | some host => rw [hh] at h; cases h; exact hne
      · split at h
        · split at h
          · cases h
          · rename_i fromHost _
            cases hh : hostState idna false false [] fromHost with
            | none => rw [hh] at h; cases h
            | some host => rw [hh] at h; cases h; exact hne
        · cases h; exact hne

/-! ## The URL heuristic -/

theorem truthy_protocol (u : URLRecord) : truthy u.protocol = true := by
  cases hs : u.scheme <;> simp [truthy, URLRecord.protocol, hs]

theorem truthy_hostname (u : URLRecord) : truthy u.hostname = Spec.hasHost u := by
  unfold truthy URLRecord.hostname Spec.hasHost
  cases u.host <;> rfl

theorem isProbablyUrl_eq_spec (idna : Idna) (text : Option (List Char)) :
    isProbablyUrl idna text = Spec.looksLikeUrl idna text := by
  unfold isProbablyUrl Spec.looksLikeUrl
  simp only
  cases ht : trim (orEmpty text) with
  | nil => rfl
  | cons c cs =>
    simp only [List.isEmpty_cons, Bool.false_eq_true, if_false]
    cases hp : URL.parse idna (c :: cs) with
    | none => exact urlPrefixPattern_test (c :: cs)
    | some u =>
      have hne := URL.parse_scheme_ne_nil hp
      simp only [truthy_protocol, truthy_hostname, Bool.true_and]
      cases hs : u.scheme with
      | nil => exact (hne hs).elim
      | cons a as => rfl

/-- C1. For every text, present or absent, `isProbablyUrl` returns the boolean
of the specification's algorithm on the trimmed text: when strict URL parsing
succeeds, whether the parsed scheme and host are both non-empty; when it
fails, whether the trimmed text starts with `http://`, `https://` or `www.` in
any letter case. It is false for absent, empty and whitespace-only text and
for `not a url`, and true for `https://example.com` and `www.example.com`. -/
theorem isProbablyUrl_refines_looksLikeUrl :
    (∀ (idna : Idna) (text : Option (List Char)),
      isProbablyUrl idna text = Spec.looksLikeUrl idna text) ∧
    (∀ (idna : Idna) (text : Option (List Char)) (u : URLRecord),
      URL.parse idna (trim (orEmpty text)) = some u →
        (isProbablyUrl idna text = true ↔ u.scheme ≠ [] ∧ Spec.hasHost u = true)) ∧
    (∀ (idna : Idna) (text : Option (List Char)),
      URL.parse idna (trim (orEmpty text)) = none →
        (isProbablyUrl idna text = true ↔
          Spec.startsWithAnyCase (trim (orEmpty text)) "http://".toList = true ∨
          Spec.startsWithAnyCase (trim (orEmpty text)) "https://".toList = true ∨
          Spec.startsWithAnyCase (trim (orEmpty text)) "www.".toList = true)) ∧
    (∀ (idna : Idna), isProbablyUrl idna none = false) ∧
    (∀ (idna : Idna), isProbablyUrl idna (some "".toList) = false) ∧
    (∀ (idna : Idna) (t : List Char), (∀ c ∈ t, isWhiteSpace c = true) →
      isProbablyUrl idna (some t) = false) ∧
    (∀ (idna : Idna), isProbablyUrl idna (some "not a url".toList) = false) ∧
    (∀ (idna : Idna), isProbablyUrl idna (some "https://example.com".toList) = true) ∧
    (∀ (idna : Idna), isProbablyUrl idna (some "www.example.com".toList) = true) := by
  refine ⟨isProbablyUrl_eq_spec, ?_, ?_, fun _ => rfl, fun _ => rfl, ?_, fun _ => rfl,
    fun _ => rfl, fun _ => rfl⟩
  · intro idna text u hp
    unfold isProbablyUrl
    simp only [hp, truthy_protocol, truthy_hostname, Bool.true_and]
    exact ⟨fun h => ⟨URL.parse_scheme_ne_nil hp, h⟩, fun h => h.2⟩
  · intro idna text hp
    unfold isProbablyUrl
    simp only [hp, urlPrefixPattern_test, Bool.or_eq_true, or_assoc]
  · intro idna t ht
    unfold isProbablyUrl
    have h0 : trim (orEmpty (some t)) = [] := trim_of_all_whiteSpace t ht
    rw [h0]
    rfl

/-! ## The classifier -/

/-- C2. Rule precedence: every text whose trimmed form starts with `WIFI:` in
any letter case is classified with key `wifi`, whatever follows the prefix and
whatever the later rules would say of it. -/
theorem classifyContent_wifi_first (idna : Idna) (text : List Char)
    (h : Spec.startsWithAnyCase (trim text) "WIFI:".toList = true) :
    (classifyContent idna (some text)).key = "wifi" := by
  unfold classifyContent
  simp only [orEmpty, wifiPattern_test, h, if_true]

/-- C2 at `wifi://host`, which the URL heuristic accepts as well, and at the
specification's `WIFI:T:WPA;S:X;P:y;;`. -/
theorem classifyContent_wifi_first_witness :
    isProbablyUrl Idna.failing (some "wifi://host".toList) = true ∧
    (classifyContent Idna.failing (some "wifi://host".toList)).key = "wifi" ∧
    (classifyContent Idna.failing (some "WIFI:T:WPA;S:X;P:y;;".toList)).key = "wifi" :=
  ⟨by decide, classifyContent_wifi_first _ _ (by decide),
    classifyContent_wifi_first _ _ (by decide)⟩

/-- C3, as stated, fails on the label of the first category: for
`WIFI:T:WPA;S:X;P:y;;` the classifier returns the label written with a
non-breaking hyphen (U+2011), which is not among the eight pairs the
specification lists. -/
theorem classifyContent_wifi_label_not_listed :
    (∀ idna : Idna, classifyContent idna (some "WIFI:T:WPA;S:X;P:y;;".toList) =
      { label := "Wi\u2011Fi config", key := "wifi" }) ∧
    ({ label := "Wi\u2011Fi config", key := "wifi" } : ContentType) ∉ Spec.listedCategories :=
  ⟨fun _ => rfl, by decide⟩

/-- C3, amended. For every input, present or absent, `classifyContent` returns
one of the eight categories of `script.js` (the specification's eight, the
label of the first spelled with U+2011), and for absent, empty or
whitespace-only input it returns `("Text", text)`. -/
theorem classifyContent_total (idna : Idna) (text : Option (List Char)) :
    classifyContent idna text ∈ returnedCategories ∧
    ((∀ c ∈ orEmpty text, isWhiteSpace c = true) →
      classifyContent idna text = { label := "Text", key := "text" }) := by
  constructor
  · unfold classifyContent returnedCategories
    simp only
    split
    · simp
    · split
      · simp
      · split
        · simp
        · split
          · simp
          · split
            · simp
            · split
              · simp
              · split
                · simp
                · simp
  · intro h
    unfold classifyContent
    rw [trim_of_all_whiteSpace _ h]
    rfl

/-! ## The email and phone patterns -/

theorem canonicalize_true (c : Char) : canonicalize true c = c.toUpper := rfl

/-- What starts a string in any letter case occurs in it, up to case. -/
theorem Spec.startsWithAnyCase_mem {s w : List Char}
    (h : Spec.startsWithAnyCase s w = true) (x : Char) (hx : x ∈ w) :
    ∃ c ∈ s, c.toUpper = x.toUpper := by
  unfold Spec.startsWithAnyCase at h
  rw [List.isPrefixOf_iff_prefix] at h
  have h1 : x.toUpper ∈ s.map Char.toUpper := h.subset (List.mem_map_of_mem _ hx)
  obtain ⟨c, hc, hcx⟩ := List.mem_map.1 h1
  exact ⟨c, hc, hcx⟩

/-- The class `[^@\s]` under the flag `i`. -/
theorem notAtOrSpace_accepts (c : Char) :
    notAtOrSpace.accepts true c = (c != '@' && !isWhiteSpace c) := by
  have h : ('@'.toUpper == c.toUpper) = (c == '@') := by
    rw [Bool.eq_iff_iff]
    simp only [beq_iff_eq]
    constructor
    · intro h
      exact eq_of_toUpper_eq_nonletter (by decide) h.symm
    · intro h
      rw [h]
  simp only [notAtOrSpace, Regex.accepts, List.any_cons, List.any_nil, ClassItem.has,
    canonicalize_true, h, Bool.or_false]
  cases h1 : (c == '@') <;> cases h2 : isWhiteSpace c <;> simp [bne, h1]

theorem emailPattern_test_iff (s : List Char) :
    emailPattern.test s = true ↔
      ∃ l d t, s = l ++ '@' :: (d ++ '.' :: t) ∧ l ≠ [] ∧ d ≠ [] ∧ t ≠ [] ∧
        (∀ c ∈ l, notAtOrSpace.accepts true c = true) ∧
        (∀ c ∈ d, notAtOrSpace.accepts true c = true) ∧
        (∀ c ∈ t, notAtOrSpace.accepts true c = true) := by
  simp only [RegExp.test, emailPattern, Regex.matchesAll_iff, Regex.matches_seq_iff,
    Regex.matches_chr_iff, canonicalize_true]
  unfold notAtOrSpace
  simp only [Regex.matches_plus_cls_iff]
  constructor
  · rintro ⟨l, r1, rfl, ⟨hl, hla⟩, a, r2, rfl, ⟨c1, rfl, hc1⟩, d, r3, rfl, ⟨hd, hda⟩,
      b, t, rfl, ⟨c2, rfl, hc2⟩, ht, hta⟩
    have e1 : c1 = '@' := eq_of_toUpper_eq_nonletter (by decide) hc1.symm
    have e2 : c2 = '.' := eq_of_toUpper_eq_nonletter (by decide) hc2.symm
    subst e1 e2
    exact ⟨l, d, t, by simp, hl, hd, ht, hla, hda, hta⟩
  · rintro ⟨l, d, t, rfl, hl, hd, ht, hla, hda, hta⟩
    exact ⟨l, '@' :: (d ++ '.' :: t), rfl, ⟨hl, hla⟩, ['@'], d ++ '.' :: t, rfl,
      ⟨'@', rfl, rfl⟩, d, '.' :: t, rfl, ⟨hd, hda⟩, ['.'], t, rfl, ⟨'.', rfl, rfl⟩, ht, hta⟩

/-- A string the email pattern matches has an `@`. -/
theorem mem_at_of_emailPattern_test {s : List Char} (h : emailPattern.test s = true) :
    '@' ∈ s := by
  obtain ⟨l, d, t, rfl, _⟩ := (emailPattern_test_iff s).1 h
  simp

/-- The class `[0-9\s\-().]` under the flag `i`. -/
theorem phoneChar_accepts_of_body {c : Char} (h : Spec.isPhoneBodyChar c = true) :
    phoneChar.accepts true c = true := by
  simp only [Spec.isPhoneBodyChar, Bool.or_eq_true, beq_iff_eq] at h
  simp only [phoneChar, Regex.accepts, List.any_cons, List.any_nil, ClassItem.has,
    canonicalize_true, if_true]
  rcases h with ((((h | h) | h) | h) | h) | h
  · have hd : (decide (48 ≤ c.toNat) && decide (c.toNat ≤ 57)) = true := h
    simp only [Bool.and_eq_true, decide_eq_true_eq] at hd
    simp [hd]
  · subst h; decide
  · subst h; decide
  · subst h; decide
  · subst h; decide
  · subst h; decide

theorem phonePattern_test_iff (s : List Char) :
    phonePattern.test s = true ↔
      ∃ body, (s = body ∨ ∃ c, c.toUpper = '+' ∧ s = c :: body) ∧ 7 ≤ body.length ∧
        ∀ c ∈ body, phoneChar.accepts true c = true := by
  simp only [RegExp.test, phonePattern, Regex.matchesAll_iff, Regex.matches_seq_iff,
    Regex.opt, Regex.matches_alt_iff, Regex.matches_chr_iff, Regex.matches_eps_iff,
    canonicalize_true]
  unfold phoneChar
  simp only [Regex.matches_atLeast_cls_iff]
  constructor
  · rintro ⟨s1, body, rfl, h1 | h1, hlen, hall⟩
    · obtain ⟨c, rfl, hc⟩ := h1
      exact ⟨body, Or.inr ⟨c, hc.symm, rfl⟩, hlen, hall⟩
    · subst h1
      exact ⟨body, Or.inl rfl, hlen, hall⟩
  · rintro ⟨body, h1 | ⟨c, hc, h1⟩, hlen, hall⟩
    · exact ⟨[], body, h1, Or.inr rfl, hlen, hall⟩
    · exact ⟨[c], body, h1, Or.inl ⟨c, rfl, hc.symm⟩, hlen, hall⟩

/-! ## Texts without a colon -/

theorem Spec.not_startsWithAnyCase_of_no_colon {s w : List Char} (hs : ':' ∉ s)
    (hw : ':' ∈ w) : Spec.startsWithAnyCase s w = false := by
  rw [Bool.eq_false_iff]
  intro h
  obtain ⟨c, hc, hcu⟩ := Spec.startsWithAnyCase_mem h ':' hw
  have : c = ':' := eq_of_toUpper_eq_nonletter (by decide) hcu
  exact hs (this ▸ hc)

/-- On a trimmed text without a colon the URL heuristic is the test for a
leading `www.`. -/
theorem isProbablyUrl_of_no_colon (idna : Idna) (text : List Char) (hs : ':' ∉ trim text) :
    isProbablyUrl idna (some text) = Spec.startsWithAnyCase (trim text) "www.".toList := by
  unfold isProbablyUrl
  simp only [orEmpty, URL.parse_eq_none_of_no_colon idna _ hs, urlPrefixPattern_test,
    Spec.not_startsWithAnyCase_of_no_colon hs (w := "http://".toList) (by decide),
    Spec.not_startsWithAnyCase_of_no_colon hs (w := "https://".toList) (by decide),
    Bool.false_or]

/-- On a text whose trimmed form has no colon and no leading `www.`, only the
email shape and the phone shape are left to decide the category. -/
theorem classifyContent_of_no_colon (idna : Idna) (text : List Char) (hs : ':' ∉ trim text)
    (hw : Spec.startsWithAnyCase (trim text) "www.".toList = false) :
    classifyContent idna (some text) =
      if emailPattern.test (trim text) then { label := "Email", key := "email" }
      else if phonePattern.test (trim text) then { label := "Phone", key := "phone" }
      else { label := "Text", key := "text" } := by
  have hs2 : ':' ∉ trim (trim text) := by rw [trim_trim]; exact hs
  unfold classifyContent
  simp only [orEmpty, wifiPattern_test, contactPattern_test, mailtoPattern_test,
    telPattern_test, geoPattern_test, eventPattern_test,
    isProbablyUrl_of_no_colon idna (trim text) hs2, trim_trim, hw,
    Spec.not_startsWithAnyCase_of_no_colon hs (w := "WIFI:".toList) (by decide),
    Spec.not_startsWithAnyCase_of_no_colon hs (w := "BEGIN:VCARD".toList) (by decide),
    Spec.not_startsWithAnyCase_of_no_colon hs (w := "MECARD:".toList) (by decide),
    Spec.not_startsWithAnyCase_of_no_colon hs (w := "mailto:".toList) (by decide),
    Spec.not_startsWithAnyCase_of_no_colon hs (w := "tel:".toList) (by decide),
    Spec.not_startsWithAnyCase_of_no_colon hs (w := "geo:".toList) (by decide),
    Spec.not_startsWithAnyCase_of_no_colon hs (w := "BEGIN:VEVENT".toList) (by decide),
    Bool.false_or, Bool.or_self, Bool.false_eq_true, if_false]

/-- A phone-set character is at most `9` in code point order. -/
theorem Spec.toNat_le_of_isPhoneSetChar {c : Char} (h : Spec.isPhoneSetChar c = true) :
    c.toNat ≤ 57 := by
  simp only [Spec.isPhoneSetChar, isAsciiDigit, Bool.or_eq_true, Bool.and_eq_true,
    decide_eq_true_eq, beq_iff_eq] at h
  rcases h with (((((h | h) | h) | h) | h) | h) | h
  · exact h.2
  all_goals (subst h; decide)

theorem Spec.isPhoneSetChar_of_body {c : Char} (h : Spec.isPhoneBodyChar c = true) :
    Spec.isPhoneSetChar c = true := by
  simp only [Spec.isPhoneBodyChar, Bool.or_eq_true] at h
  simp only [Spec.isPhoneSetChar, Bool.or_eq_true]
  tauto

/-- A text of characters up to `9` has no colon, no `@` and no leading `www.`. -/
theorem low_text_facts {s : List Char} (h : ∀ c ∈ s, c.toNat ≤ 57) :
    ':' ∉ s ∧ '@' ∉ s ∧ Spec.startsWithAnyCase s "www.".toList = false := by
  refine ⟨fun hc => absurd (h _ hc) (by decide), fun hc => absurd (h _ hc) (by decide), ?_⟩
  rw [Bool.eq_false_iff]
  intro hw
  obtain ⟨c, hc, hcu⟩ := Spec.startsWithAnyCase_mem hw 'w' (by decide)
  have h1 := h c hc
  rw [char_eq_iff_toNat, toUpper_toNat] at hcu
  have h2 : ('w' : Char).toUpper.toNat = 87 := by decide
  rw [h2] at hcu
  split at hcu <;> omega

/-- C4, as stated, fails: `1234+567` has eight characters, all of them in the
specification's phone-like set, and is classified as `text`, because the
pattern allows `+` at the first position only. -/
theorem classifyContent_inner_plus_not_phone :
    (7 ≤ (trim "1234+567".toList).length ∧
      (trim "1234+567".toList).all Spec.isPhoneSetChar = true) ∧
    (∀ idna : Idna, (classifyContent idna (some "1234+567".toList)).key = "text") :=
  ⟨by decide, fun _ => rfl⟩

/-- C4, amended. Every text whose trimmed form is an optional leading `+`
followed by at least 7 characters, each of them a digit, a space, `-`, `(`,
`)` or `.`, is classified with key `phone`: no earlier rule matches it. -/
theorem classifyContent_phone (idna : Idna) (text body : List Char)
    (hshape : trim text = body ∨ trim text = '+' :: body)
    (hlen : 7 ≤ body.length)
    (hset : ∀ c ∈ body, Spec.isPhoneBodyChar c = true) :
    (classifyContent idna (some text)).key = "phone" := by
  have hlow : ∀ c ∈ trim text, c.toNat ≤ 57 := by
    intro c hc
    rcases hshape with h | h
    · rw [h] at hc
      exact Spec.toNat_le_of_isPhoneSetChar (Spec.isPhoneSetChar_of_body (hset c hc))
    · rw [h, List.mem_cons] at hc
      rcases hc with hc | hc
      · subst hc; decide
      · exact Spec.toNat_le_of_isPhoneSetChar (Spec.isPhoneSetChar_of_body (hset c hc))
  obtain ⟨hcolon, hat, hwww⟩ := low_text_facts hlow
  have hemail : emailPattern.test (trim text) = false := by
    rw [Bool.eq_false_iff]
    exact fun h => hat (mem_at_of_emailPattern_test h)
  have hphone : phonePattern.test (trim text) = true := by
    rw [phonePattern_test_iff]
    refine ⟨body, ?_, hlen, fun c hc => phoneChar_accepts_of_body (hset c hc)⟩
    rcases hshape with h | h
    · exact Or.inl h
    · exact Or.inr ⟨'+', by decide, h⟩
  rw [classifyContent_of_no_colon idna text hcolon hwww, hemail, hphone]
  rfl

/-- C4, amended, at the specification's `+1 (555) 123-4567`. -/
theorem classifyContent_phone_witness :
    (classifyContent Idna.failing (some "+1 (555) 123-4567".toList)).key = "phone" :=
  classifyContent_phone Idna.failing "+1 (555) 123-4567".toList "1 (555) 123-4567".toList
    (Or.inr (by decide)) (by decide) (by decide)

/-! ## Printable ASCII -/

/-- Code points from `!` to `~` are not whitespace. -/
theorem isWhiteSpace_of_printable {c : Char} (h : 33 ≤ c.toNat ∧ c.toNat ≤ 126) :
    isWhiteSpace c = false := by
  rw [Bool.eq_false_iff]
  intro hw
  simp only [isWhiteSpace, Bool.or_eq_true, beq_iff_eq, Bool.and_eq_true,
    decide_eq_true_eq] at hw
  omega

theorem toNat_of_isAsciiAlphanumeric {c : Char} (h : isAsciiAlphanumeric c = true) :
    (48 ≤ c.toNat ∧ c.toNat ≤ 57) ∨ (65 ≤ c.toNat ∧ c.toNat ≤ 90) ∨
      (97 ≤ c.toNat ∧ c.toNat ≤ 122) := by
  simp only [isAsciiAlphanumeric, isAsciiAlpha, isAsciiDigit, Bool.or_eq_true,
    Bool.and_eq_true, decide_eq_true_eq] at h
  omega

/-- A character whose upper-case form is the capital letter `x` is an ASCII
letter, and its lower-case form is the small `x`. -/
theorem of_toUpper_eq_capital {c x : Char} (hx : 65 ≤ x.toNat ∧ x.toNat ≤ 90)
    (h : c.toUpper = x) :
    isAsciiAlpha c = true ∧ c.toLower.toNat = x.toNat + 32 ∧
      (c.toNat = x.toNat ∨ c.toNat = x.toNat + 32) := by
  rw [char_eq_iff_toNat, toUpper_toNat] at h
  have hl := toLower_toNat c
  simp only [isAsciiAlpha, Bool.or_eq_true, Bool.and_eq_true, decide_eq_true_eq]
  split at h <;> split at hl <;> omega

/-- The URL parser's preprocessing leaves printable text alone. -/
theorem stripInput_of_printable (s : List Char) (h : ∀ c ∈ s, 0x20 < c.toNat) :
    stripInput s = s := by
  have hnot : ∀ c ∈ s, isC0ControlOrSpace c = false := by
    intro c hc
    have := h c hc
    simp only [isC0ControlOrSpace, decide_eq_false_iff_not]
    omega
  have h1 : s.dropWhile isC0ControlOrSpace = s := by
    cases s with
    | nil => rfl
    | cons c cs => simp [List.dropWhile_cons, hnot c (List.mem_cons_self c cs)]
  have h2 : (s.reverse.dropWhile isC0ControlOrSpace).reverse = s := by
    show s.rdropWhile isC0ControlOrSpace = s
    rw [List.rdropWhile_eq_self_iff]
    intro hne
    rw [hnot _ (List.getLast_mem hne)]
    simp
  unfold stripInput
  rw [h1, h2, List.filter_eq_self]
  intro c hc
  have := h c hc
  simp only [isAsciiTabOrNewline, Bool.not_eq_true', Bool.or_eq_false_iff, beq_eq_false_iff_ne]
  omega

/-! ## Email addresses -/

/-- The characters of `local@domain.tld` with alphanumeric parts are
printable, and none of them is a colon. -/
theorem address_chars {loc domain tld : List Char}
    (hla : ∀ c ∈ loc, isAsciiAlphanumeric c = true)
    (hda : ∀ c ∈ domain, isAsciiAlphanumeric c = true)
    (hta : ∀ c ∈ tld, isAsciiAlphanumeric c = true) :
    ∀ c ∈ loc ++ '@' :: (domain ++ '.' :: tld),
      33 ≤ c.toNat ∧ c.toNat ≤ 126 ∧ c ≠ ':' := by
  intro c hc
  simp only [List.mem_append, List.mem_cons] at hc
  have key : ∀ d : Char, isAsciiAlphanumeric d = true → 33 ≤ d.toNat ∧ d.toNat ≤ 126 ∧ d ≠ ':' := by
    intro d hd
    have h1 := toNat_of_isAsciiAlphanumeric hd
    refine ⟨by omega, by omega, ?_⟩
    intro h
    subst h
    revert hd
    decide
  rcases hc with hc | hc | hc | hc | hc
  · exact key c (hla c hc)
  · subst hc; decide
  · exact key c (hda c hc)
  · subst hc; decide
  · exact key c (hta c hc)

/-- An address `local@domain.tld` with alphanumeric parts does not start with
`www.` in any letter case. -/
theorem address_not_www {loc rest : List Char} (hl : loc ≠ [])
    (hla : ∀ c ∈ loc, isAsciiAlphanumeric c = true) :
    Spec.startsWithAnyCase (loc ++ '@' :: rest) "www.".toList = false := by
  have hW : "www.".toList.map Char.toUpper = ['W', 'W', 'W', '.'] := by decide
  have hat : ('@' : Char).toUpper = '@' := by decide
  have hdot : ∀ d : Char, isAsciiAlphanumeric d = true → ('.' == d.toUpper) = false := by
    intro d hd
    rw [beq_eq_false_iff_ne]
    intro h
    have := eq_of_toUpper_eq_nonletter (by decide) h.symm
    subst this
    revert hd
    decide
  unfold Spec.startsWithAnyCase
  rw [hW]
  match loc, hl, hla with
  | [x], _, _ => simp [List.isPrefixOf, hat]
  | [x, y], _, _ => simp [List.isPrefixOf, hat]
  | [x, y, z], _, _ => simp [List.isPrefixOf, hat]
  | x :: y :: z :: u :: more, _, hla =>
    simp [List.isPrefixOf, hdot u (hla u (by simp))]

/-- The class `[^@\s]` takes every ASCII letter and digit. -/
theorem notAtOrSpace_accepts_of_alphanumeric {c : Char} (h : isAsciiAlphanumeric c = true) :
    notAtOrSpace.accepts true c = true := by
  have h1 := toNat_of_isAsciiAlphanumeric h
  rw [notAtOrSpace_accepts, isWhiteSpace_of_printable (by omega)]
  simp only [Bool.not_false, Bool.and_true, bne_iff_ne, ne_eq]
  intro hc
  subst hc
  revert h
  decide

/-- The seven characters of a prefix that reads `mailto:` in some letter case. -/
theorem mailto_chars {pre : List Char} (h : pre.map Char.toUpper = "MAILTO:".toList) :
    ∃ c1 c2 c3 c4 c5 c6, pre = [c1, c2, c3, c4, c5, c6, ':'] ∧
      c1.toUpper = 'M' ∧ c2.toUpper = 'A' ∧ c3.toUpper = 'I' ∧ c4.toUpper = 'L' ∧
      c5.toUpper = 'T' ∧ c6.toUpper = 'O' := by
  have hM : "MAILTO:".toList = ['M', 'A', 'I', 'L', 'T', 'O', ':'] := by decide
  rw [hM] at h
  simp only [List.map_eq_cons_iff, List.map_eq_nil_iff] at h
  obtain ⟨c1, _, rfl, h1, c2, _, rfl, h2, c3, _, rfl, h3, c4, _, rfl, h4, c5, _, rfl, h5,
    c6, _, rfl, h6, c7, _, rfl, h7, rfl⟩ := h
  have e7 : c7 = ':' := eq_of_toUpper_eq_nonletter (by decide) h7
  subst e7
  exact ⟨c1, c2, c3, c4, c5, c6, rfl, h1, h2, h3, h4, h5, h6⟩

/-- A text that reads `mailto:` in some letter case, followed by printable
text that does not start with `/`, parses as a URL with scheme `mailto`, an
opaque path and no host. -/
theorem URL.parse_mailto (idna : Idna) {c1 c2 c3 c4 c5 c6 a : Char} (rest : List Char)
    (h1 : c1.toUpper = 'M') (h2 : c2.toUpper = 'A') (h3 : c3.toUpper = 'I')
    (h4 : c4.toUpper = 'L') (h5 : c5.toUpper = 'T') (h6 : c6.toUpper = 'O')
    (ha : a ≠ '/') (hp : ∀ c ∈ a :: rest, 0x20 < c.toNat) :
    URL.parse idna (c1 :: c2 :: c3 :: c4 :: c5 :: c6 :: ':' :: a :: rest) =
      some { scheme := "mailto".toList, host := none } := by
  obtain ⟨a1, l1, n1⟩ := of_toUpper_eq_capital (by decide) h1
  obtain ⟨a2, l2, n2⟩ := of_toUpper_eq_capital (by decide) h2
  obtain ⟨a3, l3, n3⟩ := of_toUpper_eq_capital (by decide) h3
  obtain ⟨a4, l4, n4⟩ := of_toUpper_eq_capital (by decide) h4
  obtain ⟨a5, l5, n5⟩ := of_toUpper_eq_capital (by decide) h5
  obtain ⟨a6, l6, n6⟩ := of_toUpper_eq_capital (by decide) h6
  have e1 : c1.toLower = 'm' := (char_eq_iff_toNat _ _).2 l1
  have e2 : c2.toLower = 'a' := (char_eq_iff_toNat _ _).2 l2
  have e3 : c3.toLower = 'i' := (char_eq_iff_toNat _ _).2 l3
  have e4 : c4.toLower = 'l' := (char_eq_iff_toNat _ _).2 l4
  have e5 : c5.toLower = 't' := (char_eq_iff_toNat _ _).2 l5
  have e6 : c6.toLower = 'o' := (char_eq_iff_toNat _ _).2 l6
  have hstrip : stripInput (c1 :: c2 :: c3 :: c4 :: c5 :: c6 :: ':' :: a :: rest) =
      c1 :: c2 :: c3 :: c4 :: c5 :: c6 :: ':' :: a :: rest := by
    apply stripInput_of_printable
    intro c hc
    simp only [List.mem_cons] at hc
    have v1 : ('M' : Char).toNat = 77 := rfl
    have v2 : ('A' : Char).toNat = 65 := rfl
    have v3 : ('I' : Char).toNat = 73 := rfl
    have v4 : ('L' : Char).toNat = 76 := rfl
    have v5 : ('T' : Char).toNat = 84 := rfl
    have v6 : ('O' : Char).toNat = 79 := rfl
    rcases hc with hc | hc | hc | hc | hc | hc | hc | hc
    · subst hc; omega
    · subst hc; omega
    · subst hc; omega
    · subst hc; omega
    · subst hc; omega
    · subst hc; omega
    · subst hc; decide
    · exact hp c (by simpa using hc)
  have hscheme : schemeStartState (c1 :: c2 :: c3 :: c4 :: c5 :: c6 :: ':' :: a :: rest) =
      some (['m', 'a', 'i', 'l', 't', 'o'], a :: rest) := by
    have hcolon : isAsciiAlphanumeric ':' = false := by decide
    have b2 : isAsciiAlphanumeric c2 = true := by simp [isAsciiAlphanumeric, a2]
    have b3 : isAsciiAlphanumeric c3 = true := by simp [isAsciiAlphanumeric, a3]
    have b4 : isAsciiAlphanumeric c4 = true := by simp [isAsciiAlphanumeric, a4]
    have b5 : isAsciiAlphanumeric c5 = true := by simp [isAsciiAlphanumeric, a5]
    have b6 : isAsciiAlphanumeric c6 = true := by simp [isAsciiAlphanumeric, a6]
    simp [schemeStartState, schemeState, a1, b2, b3, b4, b5, b6,
      e1, e2, e3, e4, e5, e6, hcolon]
  unfold URL.parse
  rw [hstrip, hscheme]
  have hfile : (['m', 'a', 'i', 'l', 't', 'o'] == ['f', 'i', 'l', 'e']) = false := by decide
  have hspecial : isSpecialScheme ['m', 'a', 'i', 'l', 't', 'o'] = false := by decide
  simp only [hfile, hspecial, Bool.false_eq_true, if_false]
  split
  · rename_i heq
    simp only [List.cons.injEq] at heq
    exact (ha heq.1).elim
  · rfl

/-- C5. An address `local@domain.tld` whose three parts are non-empty runs of
ASCII letters and digits is classified with key `email`, bare and with a
`mailto:` prefix in any letter case; the URL heuristic is false on both forms,
so the Wi-Fi, contact and URL rules do not fire first. -/
theorem classifyContent_email (idna : Idna) (loc domain tld pre : List Char)
    (hl : loc ≠ []) (hd : domain ≠ []) (ht : tld ≠ [])
    (hla : ∀ c ∈ loc, isAsciiAlphanumeric c = true)
    (hda : ∀ c ∈ domain, isAsciiAlphanumeric c = true)
    (hta : ∀ c ∈ tld, isAsciiAlphanumeric c = true)
    (hpre : pre.map Char.toUpper = "MAILTO:".toList) :
    (classifyContent idna (some (loc ++ '@' :: (domain ++ '.' :: tld)))).key = "email" ∧
    (classifyContent idna (some (pre ++ (loc ++ '@' :: (domain ++ '.' :: tld))))).key = "email" ∧
    isProbablyUrl idna (some (loc ++ '@' :: (domain ++ '.' :: tld))) = false ∧
    isProbablyUrl idna (some (pre ++ (loc ++ '@' :: (domain ++ '.' :: tld)))) = false := by
  have hchars := address_chars hla hda hta
  have htrim : trim (loc ++ '@' :: (domain ++ '.' :: tld)) = loc ++ '@' :: (domain ++ '.' :: tld) :=
    trim_of_no_whiteSpace _ (fun c hc =>
      isWhiteSpace_of_printable ⟨(hchars c hc).1, (hchars c hc).2.1⟩)
  have hcolon : ':' ∉ trim (loc ++ '@' :: (domain ++ '.' :: tld)) := by
    rw [htrim]
    exact fun hc => (hchars _ hc).2.2 rfl
  have hwww : Spec.startsWithAnyCase (trim (loc ++ '@' :: (domain ++ '.' :: tld)))
      "www.".toList = false := by
    rw [htrim]
    exact address_not_www hl hla
  have hemail : emailPattern.test (loc ++ '@' :: (domain ++ '.' :: tld)) = true := by
    rw [emailPattern_test_iff]
    exact ⟨loc, domain, tld, rfl, hl, hd, ht,
      fun c hc => notAtOrSpace_accepts_of_alphanumeric (hla c hc),
      fun c hc => notAtOrSpace_accepts_of_alphanumeric (hda c hc),
      fun c hc => notAtOrSpace_accepts_of_alphanumeric (hta c hc)⟩
  have hbareUrl : isProbablyUrl idna (some (loc ++ '@' :: (domain ++ '.' :: tld))) = false := by
    rw [isProbablyUrl_of_no_colon idna _ hcolon, hwww]
  obtain ⟨c1, c2, c3, c4, c5, c6, rfl, h1, h2, h3, h4, h5, h6⟩ := mailto_chars hpre
  obtain ⟨x, loc', rfl⟩ := List.exists_cons_of_ne_nil hl
  have hx := hchars x (by simp)
  have hxs : x ≠ '/' := by
    intro h
    have := hla x (by simp)
    subst h
    revert this
    decide
  have hparse := URL.parse_mailto idna (loc' ++ '@' :: (domain ++ '.' :: tld))
    h1 h2 h3 h4 h5 h6 hxs (fun c hc => by
      have := (hchars c (by simpa using hc)).1
      omega)
  obtain ⟨_, _, n1⟩ := of_toUpper_eq_capital (by decide) h1
  obtain ⟨_, _, n2⟩ := of_toUpper_eq_capital (by decide) h2
  obtain ⟨_, _, n3⟩ := of_toUpper_eq_capital (by decide) h3
  obtain ⟨_, _, n4⟩ := of_toUpper_eq_capital (by decide) h4
  obtain ⟨_, _, n5⟩ := of_toUpper_eq_capital (by decide) h5
  obtain ⟨_, _, n6⟩ := of_toUpper_eq_capital (by decide) h6
  have v1 : ('M' : Char).toNat = 77 := rfl
  have v2 : ('A' : Char).toNat = 65 := rfl
  have v3 : ('I' : Char).toNat = 73 := rfl
  have v4 : ('L' : Char).toNat = 76 := rfl
  have v5 : ('T' : Char).toNat = 84 := rfl
  have v6 : ('O' : Char).toNat = 79 := rfl
  have htrim2 : trim ([c1, c2, c3, c4, c5, c6, ':'] ++ (x :: loc' ++ '@' :: (domain ++ '.' :: tld))) =
      c1 :: c2 :: c3 :: c4 :: c5 :: c6 :: ':' :: x :: (loc' ++ '@' :: (domain ++ '.' :: tld)) := by
    apply trim_of_no_whiteSpace
    intro c hc
    apply isWhiteSpace_of_printable
    simp only [List.cons_append, List.nil_append, List.mem_cons] at hc
    rcases hc with hc | hc | hc | hc | hc | hc | hc | hc
    · subst hc; omega
    · subst hc; omega
    · subst hc; omega
    · subst hc; omega
    · subst hc; omega
    · subst hc; omega
    · subst hc; decide
    · have := hchars c (by simpa using hc)
      exact ⟨this.1, this.2.1⟩
  have htrim3 : trim (c1 :: c2 :: c3 :: c4 :: c5 :: c6 :: ':' :: x ::
      (loc' ++ '@' :: (domain ++ '.' :: tld))) =
      c1 :: c2 :: c3 :: c4 :: c5 :: c6 :: ':' :: x :: (loc' ++ '@' :: (domain ++ '.' :: tld)) := by
    rw [← htrim2, trim_trim]
  have hmailUrl : isProbablyUrl idna (some ([c1, c2, c3, c4, c5, c6, ':'] ++
      (x :: loc' ++ '@' :: (domain ++ '.' :: tld)))) = false := by
    unfold isProbablyUrl
    simp only [orEmpty, htrim2, hparse]
    rfl
  refine ⟨?_, ?_, hbareUrl, hmailUrl⟩
  · rw [classifyContent_of_no_colon idna _ hcolon hwww, htrim, hemail]
    rfl
  · have hmailUrl2 : isProbablyUrl idna (some (c1 :: c2 :: c3 :: c4 :: c5 :: c6 :: ':' :: x ::
        (loc' ++ '@' :: (domain ++ '.' :: tld)))) = false := by
      unfold isProbablyUrl
      simp only [orEmpty, htrim3, hparse]
      rfl
    have hW : "WIFI:".toList.map Char.toUpper = ['W', 'I', 'F', 'I', ':'] := by decide
    have hB : "BEGIN:VCARD".toList.map Char.toUpper =
        ['B', 'E', 'G', 'I', 'N', ':', 'V', 'C', 'A', 'R', 'D'] := by decide
    have hC : "MECARD:".toList.map Char.toUpper = ['M', 'E', 'C', 'A', 'R', 'D', ':'] := by decide
    have hM : "mailto:".toList.map Char.toUpper = ['M', 'A', 'I', 'L', 'T', 'O', ':'] := by decide
    have hcol : (':' : Char).toUpper = ':' := by decide
    unfold classifyContent
    simp only [orEmpty, htrim2, hmailUrl2, wifiPattern_test, contactPattern_test,
      mailtoPattern_test, Spec.startsWithAnyCase, hW, hB, hC, hM, List.map_cons,
      List.isPrefixOf, h1, h2, h3, h4, h5, h6, hcol]
    simp

/-- C5 at the specification's `user@example.com` and
`mailto:user@example.com`. -/
theorem classifyContent_email_witness :
    (classifyContent Idna.failing (some "user@example.com".toList)).key = "email" ∧
    (classifyContent Idna.failing (some "mailto:user@example.com".toList)).key = "email" ∧
    isProbablyUrl Idna.failing (some "user@example.com".toList) = false ∧
    isProbablyUrl Idna.failing (some "mailto:user@example.com".toList) = false :=
  classifyContent_email Idna.failing "user".toList "example".toList "com".toList
    "mailto:".toList (by decide) (by decide) (by decide) (by decide) (by decide) (by decide)
    (by decide)

/-! ## The custom action -/

theorem anySuffix_eq_tails_any (f : List Char → Bool) (s : List Char) :
    anySuffix f s = s.tails.any f := by
  induction s with
  | nil => simp [anySuffix]
  | cons c cs ih => simp [anySuffix, ih]

/-- The class `[A-Za-z0-9\-_]` without flags. -/
theorem redeemClass_accepts (c : Char) :
    (Regex.cls false [.range 'A' 'Z', .range 'a' 'z', .range '0' '9', .single '-',
      .single '_']).accepts false c = Spec.isRedeemChar c := by
  have hA : ('A' : Char).toNat = 65 := rfl
  have hZ : ('Z' : Char).toNat = 90 := rfl
  have ha : ('a' : Char).toNat = 97 := rfl
  have hz : ('z' : Char).toNat = 122 := rfl
  have h0 : ('0' : Char).toNat = 48 := rfl
  have h9 : ('9' : Char).toNat = 57 := rfl
  have e1 : ('-' == c) = (c == '-') := by
    rw [Bool.eq_iff_iff]; simp only [beq_iff_eq]; exact eq_comm
  have e2 : ('_' == c) = (c == '_') := by
    rw [Bool.eq_iff_iff]; simp only [beq_iff_eq]; exact eq_comm
  simp only [Regex.accepts, List.any_cons, List.any_nil, ClassItem.has, canonicalize,
    Bool.false_eq_true, if_false, hA, hZ, ha, hz, h0, h9, e1, e2, Bool.or_false,
    Spec.isRedeemChar, isAsciiAlphanumeric, isAsciiAlpha, isAsciiDigit]
  cases (decide (65 ≤ c.toNat) && decide (c.toNat ≤ 90)) <;>
    cases (decide (97 ≤ c.toNat) && decide (c.toNat ≤ 122)) <;>
    cases (decide (48 ≤ c.toNat) && decide (c.toNat ≤ 57)) <;>
    cases (c == '-') <;> cases (c == '_') <;> rfl

theorem redeemBody_matchesPrefix (t : List Char) :
    redeemPattern.body.matchesPrefix false t = Spec.startsWithRedeemSegment t := by
  have hid : canonicalize false = id := by
    funext c
    simp [canonicalize]
  have hR : "/redeem/".toList = ['/', 'r', 'e', 'd', 'e', 'e', 'm', '/'] := by decide
  rw [Bool.eq_iff_iff, Regex.matchesPrefix_iff]
  simp only [redeemPattern, Regex.matches_seq_iff, Regex.matches_lit_iff, hid, List.map_id,
    Regex.matches_plus_cls_iff, redeemClass_accepts, Spec.startsWithRedeemSegment, hR,
    Bool.and_eq_true]
  constructor
  · rintro ⟨p, q, rfl, s1, s2, rfl, rfl, hne, hall⟩
    obtain ⟨c, s2', rfl⟩ := List.exists_cons_of_ne_nil hne
    refine ⟨by simp [List.isPrefixOf], ?_⟩
    simp only [List.cons_append, List.nil_append, List.drop_succ_cons, List.drop_zero]
    exact hall c (List.mem_cons_self c s2')
  · rintro ⟨hpre, hc⟩
    rw [List.isPrefixOf_iff_prefix] at hpre
    obtain ⟨r, rfl⟩ := hpre
    simp only [List.cons_append, List.nil_append, List.drop_succ_cons, List.drop_zero] at hc
    cases r with
    | nil => simp at hc
    | cons c r =>
      simp only at hc
      exact ⟨['/', 'r', 'e', 'd', 'e', 'e', 'm', '/'] ++ [c], r, by simp,
        ['/', 'r', 'e', 'd', 'e', 'e', 'm', '/'], [c], rfl, rfl, by simp,
        fun d hd => by
          have : d = c := by simpa using hd
          rw [this]; exact hc⟩

theorem redeemPattern_test (s : List Char) :
    redeemPattern.test s = Spec.hasRedeemSegment s := by
  have h : redeemPattern.test s = anySuffix (redeemPattern.body.matchesPrefix false) s := rfl
  rw [h, anySuffix_eq_tails_any, Spec.hasRedeemSegment]
  congr 1
  funext t
  exact redeemBody_matchesPrefix t

theorem classifyContent_trim (idna : Idna) (text : List Char) :
    classifyContent idna (some (trim text)) = classifyContent idna (some text) := by
  unfold classifyContent
  simp only [orEmpty, trim_trim]

/-- C6. On a non-empty decoded text the custom action shows exactly one
message, that of the specification's dispatch on the trimmed text: the redeem
flow with the whole trimmed text when the URL heuristic is true and the text
contains `/redeem/` followed by a letter, digit, `-` or `_`; otherwise the
code validation with the whole trimmed text when it starts with `CODE-`;
otherwise "no custom rule matched" with the key of the classifier, which is
the same on the trimmed and on the decoded text. The page is left as it is. -/
theorem customBtnClick_dispatch (idna : Idna) (p : Page) (h : p.lastDecoded ≠ []) :
    customBtnClick idna p =
      (p, [Effect.alert (customMessage (Spec.customAction idna p.lastDecoded))]) ∧
    (classifyContent idna (some (trim p.lastDecoded))).key =
      (classifyContent idna (some p.lastDecoded)).key := by
  refine ⟨?_, by rw [classifyContent_trim]⟩
  have ht : truthy p.lastDecoded = true := by
    cases hd : p.lastDecoded with
    | nil => exact (h hd).elim
    | cons c cs => rfl
  unfold customBtnClick Spec.customAction
  simp only [ht, Bool.not_true, Bool.false_eq_true, if_false, redeemPattern_test,
    codePattern_test]
  split
  · rfl
  · split
    · rfl
    · rfl

/-- C6 at the specification's three texts: `https://site.test/redeem/AbC-123`
gives the redeem flow with that exact text, `CODE-9988` the code validation,
`hello world` no rule with key `text`. -/
theorem customBtnClick_dispatch_witness :
    (Spec.customAction Idna.failing "https://site.test/redeem/AbC-123".toList =
        .redeemFlow "https://site.test/redeem/AbC-123".toList ∧
      customBtnClick Idna.failing (Page.holding "https://site.test/redeem/AbC-123".toList) =
        (Page.holding "https://site.test/redeem/AbC-123".toList,
          [Effect.alert ("Custom action: handle redeem flow for URL: ".toList ++
            "https://site.test/redeem/AbC-123".toList)])) ∧
    (Spec.customAction Idna.failing "CODE-9988".toList = .codeValidation "CODE-9988".toList ∧
      customBtnClick Idna.failing (Page.holding "CODE-9988".toList) =
        (Page.holding "CODE-9988".toList,
          [Effect.alert ("Custom action: validate code ".toList ++ "CODE-9988".toList)])) ∧
    (Spec.customAction Idna.failing "hello world".toList = .noRule "text" ∧
      customBtnClick Idna.failing (Page.holding "hello world".toList) =
        (Page.holding "hello world".toList,
          [Effect.alert "No custom rule matched. Type: text. Decoded content shown above.".toList])) :=
  ⟨⟨by decide, (customBtnClick_dispatch Idna.failing
      (Page.holding "https://site.test/redeem/AbC-123".toList) (by decide)).1.trans (by decide)⟩,
    ⟨by decide, (customBtnClick_dispatch Idna.failing
      (Page.holding "CODE-9988".toList) (by decide)).1.trans (by decide)⟩,
    ⟨by decide, (customBtnClick_dispatch Idna.failing
      (Page.holding "hello world".toList) (by decide)).1.trans (by decide)⟩⟩

/-! ## The Open action -/

theorem truthy_of_ne_nil {s : List Char} (h : s ≠ []) : truthy s = true := by
  cases s with
  | nil => exact (h rfl).elim
  | cons c cs => rfl

/-- A text that starts with `www.` in some letter case does not start with
`http`. -/
theorem not_startsWith_http_of_www {s : List Char}
    (h : Spec.startsWithAnyCase s "www.".toList = true) :
    startsWith s "http".toList = false := by
  have hW : "www.".toList.map Char.toUpper = ['W', 'W', 'W', '.'] := by decide
  have hH : "http".toList = ['h', 't', 't', 'p'] := by decide
  unfold Spec.startsWithAnyCase at h
  rw [hW] at h
  unfold startsWith
  rw [hH]
  cases s with
  | nil => rfl
  | cons c cs =>
    simp only [List.map_cons, List.isPrefixOf, Bool.and_eq_true, beq_iff_eq] at h
    have hc : c ≠ 'h' := by
      intro hc
      rw [hc] at h
      exact absurd h.1 (by decide)
    simp [List.isPrefixOf, Ne.symm hc]

/-- C7, as stated, fails: on `example.com` the URL heuristic is false, so the
Open action shows "Decoded content is not a URL." and opens nothing. -/
theorem openBtnClick_example_com_rejected :
    (∀ idna : Idna, isProbablyUrl idna (some "example.com".toList) = false) ∧
    (∀ idna : Idna, openBtnClick idna (Page.holding "example.com".toList) =
      (Page.holding "example.com".toList,
        [Effect.alert "Decoded content is not a URL.".toList])) :=
  ⟨fun _ => rfl, fun _ => rfl⟩

/-- C7, amended. When the decoded text is non-empty and its trimmed form has
no scheme (no colon), the Open action navigates exactly when the trimmed text
starts with `www.` in any letter case, and then to `https://` followed by the
trimmed text; a scheme-less text that does not start with `www.` is rejected
with the message "Decoded content is not a URL." and no navigation. -/
theorem openBtnClick_schemeless (idna : Idna) (p : Page) (hne : p.lastDecoded ≠ [])
    (hcolon : ':' ∉ trim p.lastDecoded) :
    (Spec.startsWithAnyCase (trim p.lastDecoded) "www.".toList = true →
      openBtnClick idna p =
        (p, [Effect.windowOpen ("https://".toList ++ trim p.lastDecoded) "_blank".toList
              "noopener,noreferrer".toList])) ∧
    (Spec.startsWithAnyCase (trim p.lastDecoded) "www.".toList = false →
      openBtnClick idna p = (p, [Effect.alert "Decoded content is not a URL.".toList])) := by
  have hcolon2 : ':' ∉ trim (trim p.lastDecoded) := by rw [trim_trim]; exact hcolon
  have hurl := isProbablyUrl_of_no_colon idna (trim p.lastDecoded) hcolon2
  rw [trim_trim] at hurl
  constructor
  · intro hw
    unfold openBtnClick
    simp only [truthy_of_ne_nil hne, Bool.not_true, Bool.false_eq_true, if_false, hurl, hw,
      if_true, not_startsWith_http_of_www hw]
  · intro hw
    unfold openBtnClick
    simp only [truthy_of_ne_nil hne, Bool.not_true, Bool.false_eq_true, if_false, hurl, hw]

/-- C7, amended, at `www.example.com`, which is opened as
`https://www.example.com`, and at `example.com`, which is rejected. -/
theorem openBtnClick_schemeless_witness :
    openBtnClick Idna.failing (Page.holding "www.example.com".toList) =
      (Page.holding "www.example.com".toList,
        [Effect.windowOpen "https://www.example.com".toList "_blank".toList
          "noopener,noreferrer".toList]) ∧
    openBtnClick Idna.failing (Page.holding "example.com".toList) =
      (Page.holding "example.com".toList,
        [Effect.alert "Decoded content is not a URL.".toList]) :=
  ⟨(openBtnClick_schemeless Idna.failing (Page.holding "www.example.com".toList)
      (by decide) (by decide)).1 (by decide),
    (openBtnClick_schemeless Idna.failing (Page.holding "example.com".toList)
      (by decide) (by decide)).2 (by decide)⟩

/-- C10 fails on the code: `HTTP://EXAMPLE.COM` passes the URL heuristic, and
because `startsWith('http')` is case-sensitive the Open action prepends
`https://` and navigates to `https://HTTP://EXAMPLE.COM`. -/
theorem openBtnClick_uppercase_scheme_reprefixed :
    (∀ idna : Idna, isProbablyUrl idna (some "HTTP://EXAMPLE.COM".toList) = true) ∧
    (∀ idna : Idna, openBtnClick idna (Page.holding "HTTP://EXAMPLE.COM".toList) =
      (Page.holding "HTTP://EXAMPLE.COM".toList,
        [Effect.windowOpen "https://HTTP://EXAMPLE.COM".toList "_blank".toList
          "noopener,noreferrer".toList])) :=
  ⟨fun _ => rfl, fun _ => rfl⟩

/-! ## The page as a state machine -/

/-- With nothing in `lastDecoded`, an action does nothing. -/
theorem step_action_of_empty (idna : Idna) (p : Page) (h : p.lastDecoded = []) (a : Action) :
    step idna p (.action a) = (p, []) := by
  cases a <;> simp [step, openBtnClick, copyBtnClick, customBtnClick, truthy, h]

theorem run_actions_of_empty (idna : Idna) (p : Page) (h : p.lastDecoded = [])
    (actions : List Action) :
    run idna p (actions.map Event.action) = (p, []) := by
  induction actions with
  | nil => rfl
  | cons a as ih =>
    simp only [List.map_cons, run, step_action_of_empty idna p h a, ih, List.append_nil]

/-- A step that is not a successful decode of a non-empty text keeps an empty
slot empty, and asks nothing of the outside world beyond the `console.error`
of a failed decode. -/
theorem step_of_empty (idna : Idna) (q : Page) (e : Event) (hq : q.lastDecoded = [])
    (he : e.storesText = false) :
    (step idna q e).1.lastDecoded = [] ∧
      ∀ eff ∈ (step idna q e).2, eff = Effect.consoleError := by
  cases e with
  | change file =>
    cases file with
    | none => exact ⟨hq, fun eff h => by simp [step, fileInputChange] at h⟩
    | some f =>
      obtain ⟨name, objectUrl, scan⟩ := f
      cases scan with
      | none => exact ⟨hq, fun eff h => by simpa [step, fileInputChange] using h⟩
      | some decoded =>
        have hd : decoded = [] := by
          cases decoded with
          | nil => rfl
          | cons c cs => simp [Event.storesText] at he
        subst hd
        exact ⟨rfl, fun eff h => by simp [step, fileInputChange] at h⟩
  | action a =>
    rw [step_action_of_empty idna q hq a]
    exact ⟨hq, fun eff h => by simp at h⟩
  | clear => exact ⟨rfl, fun eff h => by simp [step, clearBtnClick] at h⟩

/-- From an empty slot, along events none of which is a successful decode of
a non-empty text: the slot stays empty, the action requests among the events
change nothing (the page reached is the one reached without them), and
nothing is asked of the outside world beyond `console.error`. -/
theorem run_of_empty (idna : Idna) (events : List Event) :
    ∀ q : Page, q.lastDecoded = [] → (∀ e ∈ events, e.storesText = false) →
      (run idna q events).1.lastDecoded = [] ∧
      (run idna q events).1 = (run idna q (events.filter (fun e => !e.isAction))).1 ∧
      (∀ eff ∈ (run idna q events).2, eff = Effect.consoleError) := by
  induction events with
  | nil => intro q hq _; exact ⟨hq, rfl, fun eff h => by simp [run] at h⟩
  | cons e es ih =>
    intro q hq hall
    have he := hall e (List.mem_cons_self e es)
    have hes : ∀ x ∈ es, x.storesText = false := fun x hx => hall x (List.mem_cons_of_mem e hx)
    obtain ⟨hslot, heff⟩ := step_of_empty idna q e hq he
    obtain ⟨h1, h2, h3⟩ := ih (step idna q e).1 hslot hes
    refine ⟨h1, ?_, ?_⟩
    · cases e with
      | action a =>
        have hstep := step_action_of_empty idna q hq a
        simp only [run, List.filter_cons, Event.isAction, Bool.not_true, Bool.false_eq_true,
          if_false]
        rw [hstep] at h2
        rw [hstep]
        exact h2
      | change file =>
        simp only [run, List.filter_cons, Event.isAction, Bool.not_false, if_true]
        exact h2
      | clear =>
        simp only [run, List.filter_cons, Event.isAction, Bool.not_false, if_true]
        exact h2
    · intro eff h
      simp only [run, List.mem_append] at h
      rcases h with h | h
      · exact heff eff h
      · exact h3 eff h

/-- C8. After a reset the slot is empty. On every page whose slot is empty,
each open, copy and custom request leaves the page as it is and asks nothing
of the outside world: no navigation, no clipboard write, no message. This
lasts until a decode succeeds and stores a non-empty text: along any sequence
of events after the reset (requests, failed decodes, decodes of an empty text,
further resets) the slot stays empty, the requests change nothing, and the
only effect is the `console.error` of a failed decode. In particular any
sequence of requests right after the reset leaves the page as the reset left
it. -/
theorem actions_after_reset_do_nothing (idna : Idna) (p : Page) :
    (step idna p .clear).1.lastDecoded = [] ∧
    (∀ (q : Page) (a : Action), q.lastDecoded = [] → step idna q (.action a) = (q, [])) ∧
    (∀ events : List Event, (∀ e ∈ events, e.storesText = false) →
      (run idna (step idna p .clear).1 events).1.lastDecoded = [] ∧
      (run idna (step idna p .clear).1 events).1 =
        (run idna (step idna p .clear).1 (events.filter (fun e => !e.isAction))).1 ∧
      (∀ eff ∈ (run idna (step idna p .clear).1 events).2, eff = Effect.consoleError)) ∧
    (∀ actions : List Action,
      run idna (step idna p .clear).1 (actions.map Event.action) =
        ((step idna p .clear).1, [])) ∧
    (∀ (q : Page) (e : Event), q.lastDecoded = [] →
      (∀ name objectUrl decoded,
        e = .change (some { name := name, objectUrl := objectUrl, scan := some decoded }) →
          decoded = []) →
      (step idna q e).1.lastDecoded = []) := by
  refine ⟨rfl, fun q a hq => step_action_of_empty idna q hq a,
    fun events hall => run_of_empty idna events _ rfl hall,
    fun actions => run_actions_of_empty idna _ rfl actions, ?_⟩
  intro q e hq he
  cases e with
  | change file =>
    cases file with
    | none => exact hq
    | some f =>
      obtain ⟨name, objectUrl, scan⟩ := f
      cases scan with
      | none => exact hq
      | some decoded =>
        have := he name objectUrl decoded rfl
        subst this
        rfl
  | action a => rw [step_action_of_empty idna q hq a]; exact hq
  | clear => rfl

/-- C9 fails on the code: after a successful decode of `abc` and then a failed
decode, from any page, the display is cleared and hidden while `lastDecoded`
still holds `abc`; a Copy request then writes the stale `abc` to the
clipboard. -/
theorem failed_decode_keeps_lastDecoded (idna : Idna) (p : Page)
    (name1 url1 name2 url2 : List Char) :
    (run idna p [.change (some { name := name1, objectUrl := url1, scan := some "abc".toList }),
        .change (some { name := name2, objectUrl := url2, scan := none })]).1.decodedText = [] ∧
    (run idna p [.change (some { name := name1, objectUrl := url1, scan := some "abc".toList }),
        .change (some { name := name2, objectUrl := url2, scan := none })]).1.lastDecoded =
      "abc".toList ∧
    (run idna p [.change (some { name := name1, objectUrl := url1, scan := some "abc".toList }),
        .change (some { name := name2, objectUrl := url2, scan := none }),
        .action (.copy true)]).2 =
      [Effect.consoleError, Effect.clipboardWrite "abc".toList] :=
  ⟨rfl, rfl, rfl⟩

end QRScan
